import Mathlib

/-!
Verification of the Chosen v1.7.0 select-widget core shipped in this
repository (the aggregated Drupal asset
`sites/default/files/js/js_dqsBnWPkfhMvNCshKs7lKRSLygtgnPeSFxL5_pFtc0A.js`,
line 654).  The development below is a shallow embedding of the
`SelectParser` (option-model) and `Chosen`/`AbstractChosen`
(selection-controller) code: JavaScript objects become Lean structures,
in-place array mutation becomes explicit state passing with `updAt`,
regular expressions built from escaped literal queries are represented by
their anchor/body/flags components plus a literal-search semantics, and
jQuery/DOM-only effects (class toggling, scrolling, focus) are dropped
while every piece of state they reflect (flags, highlight, emitted
widget events) is kept.
-/

/- Some characters are referred to through their code points to keep the
   source free of quote-like literals. -/
def dquoteChar : Char := Char.ofNat 34
def squoteChar : Char := Char.ofNat 39
def bquoteChar : Char := Char.ofNat 96
def lbraceChar : Char := Char.ofNat 123
def rbraceChar : Char := Char.ofNat 125

/-- List update at an index, the explicit-state rendering of the
JavaScript in-place assignment `arr[i].field = v`. -/
def updAt : List α → Nat → (α → α) → List α
  | [], _, _ => []
  | x :: xs, 0, f => f x :: xs
  | x :: xs, n + 1, f => x :: updAt xs n f

/-- JavaScript `\w` character class `[A-Za-z0-9_]`, as used by the
negative lookahead `&(?!\w+;)` of `SelectParser.escapeExpression`. -/
def isWordCharJS (c : Char) : Bool := c.isAlpha || c.isDigit || c = '_'

/-- Does `rest` begin with `\w+;`?  This is the condition tested by the
lookahead in `escapeExpression`'s replacement regex `&(?!\w+;)`: an
ampersand already introducing an entity-like sequence is left alone. -/
def entityFollows (rest : List Char) : Bool :=
  let ws := rest.takeWhile isWordCharJS
  !ws.isEmpty && (rest.drop ws.length).head? = some ';'

/-- The per-character entity map of `escapeExpression`
(`b = ampersand/lt/gt/quot/x27/x60 table`); characters outside the map
are copied unchanged.  The ampersand is handled separately because of
its lookahead. -/
def escChar (c : Char) : List Char :=
  if c = '<' then "&lt;".toList
  else if c = '>' then "&gt;".toList
  else if c = dquoteChar then "&quot;".toList
  else if c = squoteChar then "&#x27;".toList
  else if c = bquoteChar then "&#x60;".toList
  else [c]

/-- The global replace `a.replace(/&(?!\w+;)|[\<\>\"\'\`]/g, ...)` of
`SelectParser.escapeExpression`, scanning left to right. -/
def escapeList : List Char → List Char
  | [] => []
  | c :: rest =>
    if c = '&' then
      if entityFollows rest then '&' :: escapeList rest
      else "&amp;".toList ++ escapeList rest
    else escChar c ++ escapeList rest

/-- Is `c` one of the characters of the guard class
`/[\&\<\>\"\'\`]/` tested by `escapeExpression` before replacing? -/
def isEscGuardChar (c : Char) : Bool :=
  c = '&' || c = '<' || c = '>' || c = dquoteChar || c = squoteChar || c = bquoteChar

/-- `SelectParser.prototype.escapeExpression`.  `none` stands for the
JavaScript `null`/`undefined`/`false` inputs, which yield the empty
string; otherwise, if the string contains none of the escapable
characters it is returned untouched, else the replacement runs. -/
def escapeExpression : Option String → String
  | none => ""
  | some a => if a.toList.any isEscGuardChar then String.mk (escapeList a.toList) else a

/-- One entry of `SelectParser.parsed` / `Chosen.results_data`: a
JavaScript object that is either a group record, an option record, or an
empty (placeholder) record.  Absent JavaScript fields read as falsy, so
every field carries the corresponding falsy default. -/
structure ResultItem where
  array_index : Nat := 0
  group : Bool := false
  empty : Bool := false
  options_index : Nat := 0
  label : String := ""
  text : String := ""
  html : String := ""
  value : String := ""
  title : Option String := none
  selected : Bool := false
  disabled : Bool := false
  group_array_index : Option Nat := none
  group_label : Option String := none
  children : Nat := 0
  classes : String := ""
  style : String := ""
  search_match : Bool := false
  group_match : Bool := false
  active_options : Nat := 0
  search_text : String := ""
  deriving Repr, DecidableEq

/-- One `<option>` element of the host select control, as read by
`SelectParser.add_option` (nodes that are not `OPTION` elements are not
modelled: the parser skips them). -/
structure HostOpt where
  text : String := ""
  value : String := ""
  html : String := ""
  title : String := ""
  selected : Bool := false
  disabled : Bool := false
  classes : String := ""
  style : String := ""
  deriving Repr, DecidableEq

/-- One `<optgroup>` element with its `<option>` children. -/
structure HostGroup where
  label : String := ""
  title : String := ""
  disabled : Bool := false
  classes : String := ""
  children : List HostOpt := []
  deriving Repr, DecidableEq

/-- A top-level child node of the host `<select>`. -/
inductive HostNode
  | option (o : HostOpt)
  | group (g : HostGroup)
  deriving Repr, DecidableEq

/-- JavaScript `a.title ? a.title : void 0`: an empty title attribute is
falsy and becomes `undefined`. -/
def jsTitle (t : String) : Option String := if t = "" then none else some t

/-- The parser state threaded through `SelectParser`: its
`options_index` counter and the `parsed` output array. -/
structure ParserState where
  options_index : Nat := 0
  parsed : List ResultItem := []
  deriving Repr, DecidableEq

/-- `SelectParser.prototype.add_option`.  `b` is the `parsed` index of
the enclosing group record (if any) whose `children` counter is bumped
for non-empty options, and `gdis` the group's disabled flag which
forces the child disabled. -/
def add_option (st : ParserState) (o : HostOpt) (b : Option Nat) (gdis : Bool) : ParserState :=
  if o.text ≠ "" then
    let parsed1 := match b with
      | some bi => updAt st.parsed bi (fun g => { g with children := g.children + 1 })
      | none => st.parsed
    { options_index := st.options_index + 1
      parsed := parsed1 ++ [{ array_index := parsed1.length
                              options_index := st.options_index
                              value := o.value
                              text := o.text
                              html := o.html
                              title := jsTitle o.title
                              selected := o.selected
                              disabled := if gdis then true else o.disabled
                              group_array_index := b
                              group_label := b.bind fun bi => (parsed1.get? bi).map (·.label)
                              classes := o.classes
                              style := o.style }] }
  else
    { options_index := st.options_index + 1
      parsed := st.parsed ++ [{ array_index := st.parsed.length
                                options_index := st.options_index
                                empty := true }] }

/-- `SelectParser.prototype.add_group`: push the group record, then add
every child option tagged with the group's `parsed` index and disabled
flag. -/
def add_group (st : ParserState) (g : HostGroup) : ParserState :=
  let b := st.parsed.length
  let st1 : ParserState :=
    { st with parsed := st.parsed ++ [{ array_index := b
                                        group := true
                                        label := escapeExpression (some g.label)
                                        title := jsTitle g.title
                                        children := 0
                                        disabled := g.disabled
                                        classes := g.classes }] }
  g.children.foldl (fun s c => add_option s c (some b) g.disabled) st1

/-- `SelectParser.prototype.add_node`: dispatch on the node kind. -/
def add_node (st : ParserState) : HostNode → ParserState
  | .option o => add_option st o none false
  | .group g => add_group st g

/-- `SelectParser.select_to_array`: run a fresh parser over all child
nodes of the select element and return its `parsed` array. -/
def select_to_array (nodes : List HostNode) : List ResultItem :=
  (nodes.foldl add_node {}).parsed

/-- The widget option object handed to the `Chosen` constructor by the
host page (`this.options`); `none` models an absent (undefined) key. -/
structure WOptions where
  max_selected_options : Option Int := none
  enable_split_word_search : Option Bool := none
  group_search : Option Bool := none
  search_contains : Option Bool := none
  case_sensitive_search : Option Bool := none
  display_selected_options : Option Bool := none
  display_disabled_options : Option Bool := none
  max_shown_results : Option Int := none
  hide_results_on_select : Option Bool := none
  deriving Repr, DecidableEq

/-- The configuration fields computed by
`AbstractChosen.prototype.set_default_values` that the search/select
algorithms read.  `max_selected_options` and `max_shown_results` use
`none` for `Infinity`. -/
structure Config where
  is_multiple : Bool := false
  enable_split_word_search : Bool := true
  group_search : Bool := true
  search_contains : Bool := false
  case_sensitive_search : Bool := false
  display_selected_options : Bool := true
  display_disabled_options : Bool := true
  max_selected_options : Option Int := none
  max_shown_results : Option Int := none
  hide_results_on_select : Bool := true
  deriving Repr, DecidableEq

/-- `this.max_selected_options = this.options.max_selected_options || Infinity`:
an absent value or the falsy number `0` defaults to `Infinity` (`none`);
every other number - negative ones included - is kept as supplied. -/
def jsNumOrInf (v : Option Int) : Option Int :=
  match v with
  | none => none
  | some n => if n = 0 then none else some n

/-- `AbstractChosen.prototype.set_default_values`, restricted to the
fields the verified algorithms consume.  `null != x ? x : d` becomes
`Option.getD`, `x || false` on booleans is also `getD false`, and the
`|| Infinity` numeric defaults go through `jsNumOrInf`. -/
def set_default_values (is_multiple : Bool) (o : WOptions) : Config :=
  { is_multiple := is_multiple
    enable_split_word_search := o.enable_split_word_search.getD true
    group_search := o.group_search.getD true
    search_contains := o.search_contains.getD false
    case_sensitive_search := o.case_sensitive_search.getD false
    display_selected_options := o.display_selected_options.getD true
    display_disabled_options := o.display_disabled_options.getD true
    max_selected_options := jsNumOrInf o.max_selected_options
    max_shown_results := jsNumOrInf o.max_shown_results
    hide_results_on_select := o.hide_results_on_select.getD true }

/-- `m <= n` for a possibly-infinite JavaScript number `m` against the
natural count `n`: `Infinity <= n` is false, a finite bound compares as
an integer (so any negative bound is already reached). -/
def maxReached (m : Option Int) (n : Nat) : Bool :=
  match m with
  | none => false
  | some v => v ≤ (n : Int)

/-- `AbstractChosen.prototype.include_option_in_results`. -/
def include_option_in_results (cfg : Config) (a : ResultItem) : Bool :=
  if cfg.is_multiple && !cfg.display_selected_options && a.selected then false
  else if !cfg.display_disabled_options && a.disabled then false
  else if a.empty then false
  else true

/-- A compiled regular expression as built by `get_search_regex` /
`get_highlight_regex`: an anchor fragment prepended to the
regex-escaped query body, plus the flags string. -/
structure JsRegex where
  anchor : String
  body : String
  flags : String
  deriving Repr, DecidableEq

/-- The character class of `winnow_results`' escaping step
`g.replace(/[-[\]{}()*+?.,\\^$|#\s]/g, "\\$&")`. -/
def needsRegexEscape (c : Char) : Bool :=
  c = '-' || c = '[' || c = ']' || c = lbraceChar || c = rbraceChar ||
  c = '(' || c = ')' || c = '*' || c = '+' || c = '?' || c = '.' ||
  c = ',' || c = '\\' || c = '^' || c = '$' || c = '|' || c = '#' || c.isWhitespace

/-- The escaping step itself: prefix a backslash to every character of
the class above, leaving the rest untouched. -/
def regexEscape (s : String) : String :=
  String.mk (s.toList.flatMap fun c => if needsRegexEscape c then ['\\', c] else [c])

/-- `AbstractChosen.prototype.get_search_regex`: anchor `^` unless
"contains" mode, flag `i` unless case-sensitive mode, around the
already-escaped body `a`. -/
def get_search_regex (cfg : Config) (a : String) : JsRegex :=
  { anchor := if cfg.search_contains then "" else "^"
    body := a
    flags := if cfg.case_sensitive_search then "" else "i" }

/-- `AbstractChosen.prototype.get_highlight_regex`: identical body and
flags, but the anchor fragment is the word boundary `\b` (not nothing)
unless "contains" mode. -/
def get_highlight_regex (cfg : Config) (a : String) : JsRegex :=
  { anchor := if cfg.search_contains then "" else "\\b"
    body := a
    flags := if cfg.case_sensitive_search then "" else "i" }

/-- ASCII lower-casing of one character (the canonicalization the `i`
flag performs on the ASCII texts this widget handles). -/
def asciiLower (c : Char) : Char :=
  if c.isUpper then Char.ofNat (c.toNat + 32) else c

/-- Case folding for the `i` flag. -/
def foldCase (ci : Bool) (cs : List Char) : List Char :=
  if ci then cs.map asciiLower else cs

/-- JavaScript `s.split(sep)` for a one-character separator: empty
fields are kept, a trailing separator yields a trailing empty field. -/
def splitOnChar (sep : Char) (cs : List Char) : List (List Char) :=
  cs.foldr (fun c acc =>
    if c = sep then [] :: acc
    else match acc with
      | [] => [[c]]
      | a :: as => (c :: a) :: as) [[]]

/-- Is `p` a prefix of some suffix of `s` (substring test)? -/
def subIn (p : List Char) : List Char → Bool
  | [] => p.isEmpty
  | c :: rest => p.isPrefixOf (c :: rest) || subIn p rest

/-- JavaScript word character for `\b` semantics. -/
def headIsWord : List Char → Bool
  | [] => false
  | c :: _ => isWordCharJS c

/-- Scan for a `\b`-anchored literal match: `prevW` says whether the
character before the current position is a word character; a boundary
holds where word-ness flips. -/
def wbScan (p : List Char) : List Char → Bool → Bool
  | s, prevW =>
    ((prevW != headIsWord s) && p.isPrefixOf s) ||
      match s with
      | [] => false
      | c :: rest => wbScan p rest (isWordCharJS c)

/-- Semantics of `r.test(s)` for the regexes this widget compiles: the
body is `regexEscape q` for the literal query `q`, so the pattern
matches exactly where `q` occurs literally, constrained by the anchor
fragment (`^` start, `\b` word boundary, none anywhere), with ASCII
case folding under the `i` flag. -/
def rtest (r : JsRegex) (q : String) (s : String) : Bool :=
  let ci := r.flags = "i"
  let p := foldCase ci q.toList
  let t := foldCase ci s.toList
  if r.anchor = "^" then p.isPrefixOf t
  else if r.anchor = "\\b" then wbScan p t false
  else subIn p t

/-- First match position of the same pattern in `s`, or `-1`
(JavaScript `String.prototype.search`). -/
def rsearchAux (p : List Char) (anchorWb : Bool) : List Char → Bool → Nat → Option Nat
  | s, prevW, i =>
    if ((!anchorWb || (prevW != headIsWord s)) && p.isPrefixOf s) then some i
    else
      match s with
      | [] => none
      | c :: rest => rsearchAux p anchorWb rest (isWordCharJS c) (i + 1)

/-- `s.search(r)` for the highlight regex (`\b`-anchored or bare). -/
def rsearch (r : JsRegex) (q : String) (s : String) : Int :=
  let ci := r.flags = "i"
  let p := foldCase ci q.toList
  let t := foldCase ci s.toList
  match rsearchAux p (r.anchor = "\\b") t false 0 with
  | some i => (i : Int)
  | none => -1

/-- Clamp a JavaScript `substr` start argument: negative counts from the
end (not below zero), positive is capped at the length. -/
def jsStart (n : Nat) (start : Int) : Nat :=
  if start < 0 then ((n : Int) + start).toNat else min start.toNat n

/-- JavaScript `s.substr(start)` (one-argument form). -/
def jsSubstrFrom (s : String) (start : Int) : String :=
  String.mk (s.toList.drop (jsStart s.length start))

/-- JavaScript `s.substr(start, len)`: negative `len` yields nothing. -/
def jsSubstrLen (s : String) (start len : Int) : String :=
  String.mk ((s.toList.drop (jsStart s.length start)).take len.toNat)

/-- The highlight annotation of `winnow_results`: locate the first
match of the highlight regex, splice `</em>` after the match-length
window and `<em>` before it.  (`h` may be `-1` when the word-boundary
pattern finds nothing; the JavaScript arithmetic is reproduced as-is.) -/
def annotateMatch (b : JsRegex) (g : String) (st : String) : String :=
  let h : Int := rsearch b g st
  let i := jsSubstrLen st 0 (h + (g.length : Int)) ++ "</em>" ++ jsSubstrFrom st (h + (g.length : Int))
  jsSubstrLen i 0 h ++ "<em>" ++ jsSubstrFrom i h

/-- `AbstractChosen.prototype.search_string_match`: direct test first;
otherwise, with split-word search enabled and a space (or leading `[`)
present, strip brackets, split on single spaces and test every token;
the JavaScript fall-through returns undefined, i.e. false. -/
def search_string_match (cfg : Config) (s : String) (r : JsRegex) (q : String) : Bool :=
  if rtest r q s then true
  else if cfg.enable_split_word_search &&
      (subIn [' '] s.toList || s.toList.head? = some '[') then
    let parts := splitOnChar ' ' (s.toList.filter fun c => c ≠ '[' && c ≠ ']')
    parts.any fun w => rtest r q (String.mk w)
  else false

/-- A fallback record for lookups that cannot fail on well-indexed
data (every field at its falsy default). -/
def defaultItem : ResultItem := {}

/-- One iteration of the `winnow_results` loop at index `j`, written as
the same sequence of array reads and writes the JavaScript performs on
`results_data` (the aliases `c` and `f` become re-reads of the list).
The accumulator carries the array and the running total-match counter
`e`. -/
def winnowStep (cfg : Config) (g : String) (d b : JsRegex)
    (acc : List ResultItem × Nat) (j : Nat) : List ResultItem × Nat :=
  let dat := acc.1
  let e := acc.2
  match dat.get? j with
  | none => acc
  | some c0 =>
    let c1 := { c0 with search_match := false }
    let dat1 := updAt dat j fun c => { c with search_match := false }
    if !include_option_in_results cfg c1 then (dat1, e)
    else
      let dat2 := if c1.group then
          updAt dat1 j fun c => { c with group_match := false, active_options := 0 }
        else dat1
      let bump := match c1.group_array_index with
        | some gi => (dat2.get? gi).map fun f => (gi, f)
        | none => none
      let e1 := match bump with
        | some (_, f) => if f.active_options = 0 && f.search_match then e + 1 else e
        | none => e
      let dat3 := match bump with
        | some (gi, _) => updAt dat2 gi fun f => { f with active_options := f.active_options + 1 }
        | none => dat2
      let dat4 := updAt dat3 j fun c =>
        { c with search_text := if c.group then c.label else c.html }
      if !(!c1.group || cfg.group_search) then (dat4, e1)
      else
        let sm := search_string_match cfg (if c1.group then c1.label else c1.html) d g
        let dat5 := updAt dat4 j fun c => { c with search_match := sm }
        let e2 := if sm && !c1.group then e1 + 1 else e1
        if sm then
          let dat6 := if g.length ≠ 0 then
              updAt dat5 j fun c => { c with search_text := annotateMatch b g c.search_text }
            else dat5
          let dat7 := match bump with
            | some (gi, _) => updAt dat6 gi fun f => { f with group_match := true }
            | none => dat6
          (dat7, e2)
        else
          match c1.group_array_index with
          | some gi =>
            match dat5.get? gi with
            | some f =>
              if f.search_match then
                (updAt dat5 j fun c => { c with search_match := true }, e2)
              else (dat5, e2)
            | none => (dat5, e2)
          | none => (dat5, e2)

/-- A collapsed reformulation of `winnowStep` used by the proofs: the
sequence of in-place writes is materialised as at most two `updAt`
calls (one rewriting the processed entry wholesale, one rewriting its
parent group), with every decision taken on the entry and parent as
read at the start of the step.  It coincides with `winnowStep`
whenever the entry's group reference is not the entry itself
(`winnowStep_eq_spec`). -/
def winnowStepSpec (cfg : Config) (g : String) (d b : JsRegex)
    (dat : List ResultItem) (e : Nat) (k : Nat) : List ResultItem × Nat :=
  match dat.get? k with
  | none => (dat, e)
  | some c0 =>
    if !include_option_in_results cfg c0 then
      (updAt dat k fun _ => { c0 with search_match := false }, e)
    else
      let r1 := if c0.group then
          { c0 with search_match := false, group_match := false, active_options := 0 }
        else { c0 with search_match := false }
      let st0 := if c0.group then c0.label else c0.html
      let r2 := { r1 with search_text := st0 }
      let sm := search_string_match cfg st0 d g
      let ann := if g.length ≠ 0 then annotateMatch b g st0 else st0
      match c0.group_array_index with
      | none =>
        if !(!c0.group || cfg.group_search) then (updAt dat k fun _ => r2, e)
        else if sm then
          (updAt dat k fun _ => { r2 with search_match := true, search_text := ann },
           if !c0.group then e + 1 else e)
        else (updAt dat k fun _ => r2, e)
      | some gi =>
        match dat.get? gi with
        | none =>
          if !(!c0.group || cfg.group_search) then (updAt dat k fun _ => r2, e)
          else if sm then
            (updAt dat k fun _ => { r2 with search_match := true, search_text := ann },
             if !c0.group then e + 1 else e)
          else (updAt dat k fun _ => r2, e)
        | some f0 =>
          let e1 := if f0.active_options = 0 && f0.search_match then e + 1 else e
          if !(!c0.group || cfg.group_search) then
            (updAt (updAt dat k fun _ => r2) gi
               fun f => { f with active_options := f.active_options + 1 }, e1)
          else if sm then
            (updAt (updAt dat k fun _ => { r2 with search_match := true, search_text := ann })
               gi fun f => { f with active_options := f.active_options + 1, group_match := true },
             if !c0.group then e1 + 1 else e1)
          else if f0.search_match then
            (updAt (updAt dat k fun _ => { r2 with search_match := true }) gi
               fun f => { f with active_options := f.active_options + 1 }, e1)
          else
            (updAt (updAt dat k fun _ => r2) gi
               fun f => { f with active_options := f.active_options + 1 }, e1)

/-- The full filtering pass of `winnow_results`: build the match and
highlight regexes from the escaped query and run the loop over every
index of `results_data`. -/
def winnowPass (cfg : Config) (g : String) (dat : List ResultItem) : List ResultItem × Nat :=
  let a := regexEscape g
  let d := get_search_regex cfg a
  let b := get_highlight_regex cfg a
  (List.range dat.length).foldl (winnowStep cfg g d b) (dat, 0)

/-- One rendered `<li>` of the results pane, keeping the features the
spec talks about: which record it came from, whether it carries the
`active-result` / `result-selected` classes, and its (possibly
highlight-annotated) displayed text. -/
structure Rendered where
  isGroup : Bool := false
  array_index : Nat := 0
  activeResult : Bool := false
  resultSelected : Bool := false
  search_text : String := ""
  deriving Repr, DecidableEq

/-- `Chosen.prototype.result_add_option`: render a non-group record iff
it matched and the include predicate admits it; the `active-result`
class is added unless disabled or (multi mode) already selected. -/
def result_add_option (cfg : Config) (a : ResultItem) : Option Rendered :=
  if a.search_match && include_option_in_results cfg a then
    some { isGroup := false
           array_index := a.array_index
           activeResult := !(a.disabled || (a.selected && cfg.is_multiple))
           resultSelected := a.selected
           search_text := a.search_text }
  else none

/-- `Chosen.prototype.result_add_group`: render a group record iff its
own text matched (directly or via `group_match`) and it has at least
one active option. -/
def result_add_group (a : ResultItem) : Option Rendered :=
  if (a.search_match || a.group_match) && decide (0 < a.active_options) then
    some { isGroup := true
           array_index := a.array_index
           search_text := a.search_text }
  else none

/-- The loop of `Chosen.prototype.results_option_build`: walk
`results_data`, count rendered entries in `e`, and stop as soon as the
count reaches `max_shown_results` (checked after each iteration's
body, as the JavaScript for-condition does). -/
def robLoop (cfg : Config) : List ResultItem → Nat → List Rendered
  | [], _ => []
  | c :: rest, e =>
    let rend := if c.group then result_add_group c else result_add_option cfg c
    match rend with
    | some r => r :: (if maxReached cfg.max_shown_results (e + 1) then [] else robLoop cfg rest (e + 1))
    | none => if maxReached cfg.max_shown_results e then [] else robLoop cfg rest e

/-- `Chosen.prototype.results_option_build` (render-only: the
`{first: true}` initial-build side effects touch the DOM, not the
model). -/
def results_option_build (cfg : Config) (dat : List ResultItem) : List Rendered :=
  robLoop cfg dat 0

/-- `Chosen.prototype.winnow_results_set_highlight`: in single mode
prefer the first rendered entry that is selected and active, otherwise
take the first active rendered entry; the result is the highlighted
record's `array_index`. -/
def winnow_results_set_highlight (cfg : Config) (rend : List Rendered) : Option Nat :=
  let b := if cfg.is_multiple then none
    else rend.find? fun r => r.resultSelected && r.activeResult
  match b with
  | some r => some r.array_index
  | none => (rend.find? fun r => r.activeResult).map (·.array_index)

/-- The observable outcome of one `winnow_results` call: either the
"no results" rendering for the query, or the rendered list plus the
re-established highlight. -/
inductive WinnowOutcome
  | noResults (q : String)
  | showResults (rend : List Rendered) (highlight : Option Nat)
  deriving Repr, DecidableEq

/-- `Chosen.prototype.winnow_results`: run the pass, then either render
the single no-results entry (`1 > e && g.length`) or build the result
list and set the highlight. -/
def winnow_results (cfg : Config) (q : String) (dat : List ResultItem) :
    List ResultItem × WinnowOutcome :=
  let p := winnowPass cfg q dat
  if p.2 = 0 && q.length ≠ 0 then (p.1, .noResults q)
  else
    let rend := results_option_build cfg p.1
    (p.1, .showResults rend (winnow_results_set_highlight cfg rend))

/-- One `<option>` element of the host native control as the selection
algorithms see it (`this.form_field.options[i]`). -/
structure FormOpt where
  value : String := ""
  selected : Bool := false
  disabled : Bool := false
  deriving Repr, DecidableEq

/-- Outward notifications the widget emits (jQuery `trigger` calls the
spec's interface section names). -/
inductive WidgetEvent
  | maxselected
  | changeSelected (v : String)
  | changeDeselected (v : String)
  | showingDropdown
  | hidingDropdown
  | noResultsShown (q : String)
  deriving Repr, DecidableEq

/-- The mutable widget state shared by the selection algorithms:
`results_data`, the host control's options, the cached selected count
(`null` = `none`), the highlighted record's `array_index`, the
remembered `selectedIndex`, the open flag, the raw search field value,
and the trace of emitted events. -/
structure WidgetState where
  results_data : List ResultItem := []
  form_options : List FormOpt := []
  selected_option_count : Option Nat := none
  result_highlight : Option Nat := none
  current_selectedIndex : Int := -1
  results_showing : Bool := false
  search_field_value : String := ""
  events : List WidgetEvent := []
  deriving Repr, DecidableEq

/-- `this.form_field.selectedIndex`: index of the first selected host
option, `-1` when none is selected. -/
def formSelectedIndex (opts : List FormOpt) : Int :=
  match opts.findIdx? (·.selected) with
  | some i => (i : Int)
  | none => -1

/-- Write `options[i].selected = v` on the host control.  A multiple
select keeps the flags independent; on a single select the browser
makes a true write exclusive. -/
def setFormSelected (is_multiple : Bool) (opts : List FormOpt) (i : Nat) (v : Bool) :
    List FormOpt :=
  if is_multiple || !v then updAt opts i fun o => { o with selected := v }
  else (opts.map fun o => { o with selected := false }).set i
    { (opts.getD i {}) with selected := true }

/-- The number of host options with `selected = true`. -/
def countSel (st : WidgetState) : Nat :=
  (st.form_options.filter (·.selected)).length

/-- `AbstractChosen.prototype.choices_count`: return the cached count if
present, otherwise scan `form_field.options` and cache the result. -/
def choices_count (st : WidgetState) : Nat × WidgetState :=
  match st.selected_option_count with
  | some n => (n, st)
  | none => (countSel st, { st with selected_option_count := some (countSel st) })

/-- `Chosen.prototype.result_clear_highlight` (modulo the CSS class). -/
def result_clear_highlight (st : WidgetState) : WidgetState :=
  { st with result_highlight := none }

/-- `Chosen.prototype.results_hide`: when showing, clear the highlight
and emit the hiding notification; always end not showing. -/
def results_hide (st : WidgetState) : WidgetState :=
  if st.results_showing then
    { st with result_highlight := none
              results_showing := false
              events := st.events ++ [.hidingDropdown] }
  else { st with results_showing := false }

/-- `this.get_search_text()`: trim the raw field value and escape it the
way `jQuery("<div/>").text(b).html()` does (ampersand and angle
brackets become entities). -/
def escape_html (s : String) : String :=
  String.mk (s.toList.flatMap fun c =>
    if c = '&' then "&amp;".toList
    else if c = '<' then "&lt;".toList
    else if c = '>' then "&gt;".toList
    else [c])

/-- Whitespace trimming as `jQuery.trim` performs it. -/
def jsTrim (s : String) : String :=
  String.mk (((s.toList.dropWhile Char.isWhitespace).reverse.dropWhile
    Char.isWhitespace).reverse)

def get_search_text (st : WidgetState) : String :=
  escape_html (jsTrim st.search_field_value)

/-- Apply one `winnow_results()` call to the widget state: the pass
rewrites `results_data`, the highlight is cleared and re-established
from the outcome, and the no-results rendering emits its
notification. -/
def winnowApply (cfg : Config) (st : WidgetState) : WidgetState :=
  let q := get_search_text st
  let p := winnow_results cfg q st.results_data
  match p.2 with
  | .noResults q' =>
    { st with results_data := p.1
              result_highlight := none
              events := st.events ++ [.noResultsShown q'] }
  | .showResults _ hl =>
    { st with results_data := p.1, result_highlight := hl }

/-- `Chosen.prototype.results_show`: in multi mode an already-exhausted
capacity aborts with the `chosen:maxselected` notification; otherwise
open, re-run the filter and announce the dropdown. -/
def results_show (cfg : Config) (st : WidgetState) : WidgetState :=
  let cc := if cfg.is_multiple then choices_count st else (0, st)
  if cfg.is_multiple && maxReached cfg.max_selected_options cc.1 then
    { cc.2 with events := cc.2.events ++ [.maxselected] }
  else
    let st2 := { cc.2 with results_showing := true }
    let st3 := winnowApply cfg st2
    { st3 with events := st3.events ++ [.showingDropdown] }

/-- `Chosen.prototype.reset_single_select_options` clears the
`selected` flag of every `results_data` record. -/
def reset_single_select_options (dat : List ResultItem) : List ResultItem :=
  dat.map fun a => if a.selected then { a with selected := false } else a

/-- `Chosen.prototype.result_select`, driven by the currently
highlighted record.  `meta`/`ctrl` are the modifier flags of the
triggering event.  Steps, in source order: bail out without a highlight;
save and clear the highlight; in multi mode reject at capacity with the
`chosen:maxselected` notification; otherwise mark the record and the
host option selected, drop the count cache, close the dropdown when
configured to, and emit the value-change notification (multi always,
single only when `selectedIndex` moved). -/
def result_select (cfg : Config) (meta ctrl : Bool) (st : WidgetState) : WidgetState :=
  match st.result_highlight with
  | none => st
  | some hi =>
    let st1 := result_clear_highlight st
    let cc := if cfg.is_multiple then choices_count st1 else (0, st1)
    if cfg.is_multiple && maxReached cfg.max_selected_options cc.1 then
      { cc.2 with events := cc.2.events ++ [.maxselected] }
    else
      let st2 := cc.2
      let rd0 := if cfg.is_multiple then st2.results_data
        else reset_single_select_options st2.results_data
      match rd0.get? hi with
      | none => { st2 with results_data := rd0 }
      | some c =>
        let rd1 := updAt rd0 hi fun r => { r with selected := true }
        let fo := setFormSelected cfg.is_multiple st2.form_options c.options_index true
        let st3 := { st2 with results_data := rd1
                              form_options := fo
                              selected_option_count := none }
        let st4 := if !cfg.is_multiple || (cfg.hide_results_on_select && !meta && !ctrl)
          then results_hide st3 else st3
        let st5 := if cfg.is_multiple || formSelectedIndex st4.form_options ≠ st4.current_selectedIndex
          then { st4 with events := st4.events ++
                  [.changeSelected (((st4.form_options.get? c.options_index).getD {}).value)] }
          else st4
        { st5 with current_selectedIndex := formSelectedIndex st5.form_options }

/-- `Chosen.prototype.result_deselect`: refuse when the host option is
disabled; otherwise clear both selected flags, drop the count cache,
clear the highlight, re-filter if the dropdown is open, and emit the
deselection notification.  Returns the JavaScript boolean result. -/
def result_deselect (cfg : Config) (idx : Nat) (st : WidgetState) : Bool × WidgetState :=
  match st.results_data.get? idx with
  | none => (false, st)
  | some b =>
    match st.form_options.get? b.options_index with
    | none => (false, st)
    | some op =>
      if op.disabled then (false, st)
      else
        let rd := updAt st.results_data idx fun r => { r with selected := false }
        let fo := setFormSelected cfg.is_multiple st.form_options b.options_index false
        let st1 := { st with results_data := rd
                             form_options := fo
                             selected_option_count := none
                             result_highlight := none }
        let st2 := if st1.results_showing then winnowApply cfg st1 else st1
        (true, { st2 with events := st2.events ++ [.changeDeselected op.value] })

/-- One user-level select gesture: the pointer/keyboard interaction
highlights the rendered record with `array_index = i`, then
`result_select` runs with the gesture's modifier flags. -/
def selectStep (cfg : Config) (st : WidgetState) (g : Nat × Bool × Bool) : WidgetState :=
  result_select cfg g.2.1 g.2.2 { st with result_highlight := some g.1 }

/-- A user-level select-or-deselect gesture, for cache-coherence
sequences. -/
inductive Gesture
  | select (i : Nat) (meta ctrl : Bool)
  | deselect (i : Nat)
  deriving Repr, DecidableEq

def gestureStep (cfg : Config) (st : WidgetState) : Gesture → WidgetState
  | .select i m c => selectStep cfg st (i, m, c)
  | .deselect i => (result_deselect cfg i st).2

/-- Closed form of the record `add_option` emits for one host option:
group membership data is passed in; an empty-text option yields the
bare placeholder record. -/
def optionRecord (ai oi : Nat) (b : Option Nat) (glabel : Option String) (gdis : Bool)
    (o : HostOpt) : ResultItem :=
  if o.text ≠ "" then
    { array_index := ai
      options_index := oi
      value := o.value
      text := o.text
      html := o.html
      title := jsTitle o.title
      selected := o.selected
      disabled := if gdis then true else o.disabled
      group_array_index := b
      group_label := glabel
      classes := o.classes
      style := o.style }
  else { array_index := ai, options_index := oi, empty := true }

/-- Number of children of a host group with non-empty display text. -/
def countNE (cs : List HostOpt) : Nat := (cs.filter fun o => o.text ≠ "").length

/-- Closed form of the record `add_group` leaves for the group itself
once all children have been walked: its `children` counter holds the
number of non-empty children. -/
def groupRecord (ai : Nat) (g : HostGroup) : ResultItem :=
  { array_index := ai
    group := true
    label := escapeExpression (some g.label)
    title := jsTitle g.title
    children := countNE g.children
    disabled := g.disabled
    classes := g.classes }

/-- Closed form of the child records of one group, starting at flat
index `ai` and host ordinal `oi`. -/
def childChunk (ai oi bIdx : Nat) (glabel : String) (gdis : Bool) :
    List HostOpt → List ResultItem
  | [] => []
  | o :: os =>
    optionRecord ai oi (some bIdx) (some glabel) gdis o ::
      childChunk (ai + 1) (oi + 1) bIdx glabel gdis os

/-- Closed form of the records one host node contributes. -/
def nodeChunk (ai oi : Nat) : HostNode → List ResultItem
  | .option o => [optionRecord ai oi none none false o]
  | .group g =>
    groupRecord ai g ::
      childChunk (ai + 1) oi ai (escapeExpression (some g.label)) g.disabled g.children

/-- How many flat records a node contributes. -/
def nodeChunkLen : HostNode → Nat
  | .option _ => 1
  | .group g => 1 + g.children.length

/-- How many host-ordinal slots (`options_index` increments) a node
consumes: one per option element, empty ones included. -/
def nodeOptCount : HostNode → Nat
  | .option _ => 1
  | .group g => g.children.length

/-- Closed form of the whole flattened list, threading the flat index
and host ordinal. -/
def chunksFrom (ai oi : Nat) : List HostNode → List ResultItem
  | [] => []
  | n :: ns => nodeChunk ai oi n ++ chunksFrom (ai + nodeChunkLen n) (oi + nodeOptCount n) ns

/-- All option elements of the host list in document order (group
children flattened in place). -/
def hostOptions : List HostNode → List HostOpt
  | [] => []
  | .option o :: ns => o :: hostOptions ns
  | .group g :: ns => g.children ++ hostOptions ns

/-- The display text a flat record stands for: a group shows its
(escaped) label, an option its text. -/
def itemText (r : ResultItem) : String := if r.group then r.label else r.text

/-- The display texts one host node contributes, in order. -/
def nodeTexts : HostNode → List String
  | .option o => [o.text]
  | .group g => escapeExpression (some g.label) :: g.children.map (·.text)

/-- The fields of a record never touched by `winnow_results` (identity,
structure, selection, disabledness); the filter pass only rewrites
`search_match`, `group_match`, `active_options` and `search_text`. -/
structure Persist where
  array_index : Nat
  group : Bool
  empty : Bool
  options_index : Nat
  label : String
  text : String
  html : String
  value : String
  title : Option String
  selected : Bool
  disabled : Bool
  group_array_index : Option Nat
  group_label : Option String
  children : Nat
  classes : String
  style : String
  deriving Repr, DecidableEq

def persistOf (r : ResultItem) : Persist :=
  { array_index := r.array_index
    group := r.group
    empty := r.empty
    options_index := r.options_index
    label := r.label
    text := r.text
    html := r.html
    value := r.value
    title := r.title
    selected := r.selected
    disabled := r.disabled
    group_array_index := r.group_array_index
    group_label := r.group_label
    children := r.children
    classes := r.classes
    style := r.style }

/-- Structural sanity of a flat list as `select_to_array` produces it:
a group record carries no group reference, is never selected and never
empty; a record's group reference points strictly backwards at a group
record whose disabled flag it inherits. -/
def wfItem (dat : List ResultItem) (j : Nat) (c : ResultItem) : Bool :=
  (if c.group then c.group_array_index.isNone && !c.selected && !c.empty else true) &&
  (match c.group_array_index with
   | some gi =>
     decide (gi < j) &&
       (match dat.get? gi with
        | some p => p.group && (!p.disabled || c.disabled)
        | none => false)
   | none => true)

def wellFormedB (dat : List ResultItem) : Bool :=
  (List.range dat.length).all fun j =>
    match dat.get? j with
    | some c => wfItem dat j c
    | none => true

/-- Total flat records contributed by a host prefix. -/
def totalChunkLen (ns : List HostNode) : Nat := (ns.map nodeChunkLen).sum

/-- Total host ordinals consumed by a host prefix. -/
def totalOptCount (ns : List HostNode) : Nat := (ns.map nodeOptCount).sum

/-- Coherence of the cached selected count: whenever the cache is
filled it holds the true number of selected host options. -/
def cacheOK (st : WidgetState) : Prop :=
  ∀ n, st.selected_option_count = some n → n = countSel st

/-- The capacity bound as a proposition: the selected count does not
exceed a finite `maxSelectedOptions`. -/
def capOK (m : Option Int) (n : Nat) : Prop :=
  match m with
  | none => True
  | some v => (n : Int) ≤ v

theorem updAt_length (l : List α) (i : Nat) (f : α → α) : (updAt l i f).length = l.length := by
  induction l generalizing i with
  | nil => rfl
  | cons x xs ih => cases i with
    | zero => rfl
    | succ n => simpa [updAt] using ih n

theorem get?_updAt (l : List α) (i j : Nat) (f : α → α) :
    (updAt l i f).get? j = if j = i then (l.get? j).map f else l.get? j := by
  induction l generalizing i j with
  | nil => simp [updAt]
  | cons x xs ih =>
    cases i with
    | zero =>
      cases j with
      | zero => simp [updAt]
      | succ m => simp [updAt]
    | succ n =>
      cases j with
      | zero => simp [updAt]
      | succ m => simpa [updAt, Nat.succ_inj] using ih n m

theorem updAt_append_middle (p q : List α) (x : α) (f : α → α) :
    updAt (p ++ x :: q) p.length f = p ++ f x :: q := by
  induction p with
  | nil => rfl
  | cons y ys ih => simpa [updAt] using ih

theorem get?_append_middle (p q : List α) (x : α) :
    (p ++ x :: q).get? p.length = some x := by
  induction p with
  | nil => rfl
  | cons y ys ih => simpa using ih

theorem getElem_append_middle (p q : List α) (x : α) (h : p.length < (p ++ x :: q).length) :
    (p ++ x :: q)[p.length] = x := by
  induction p with
  | nil => rfl
  | cons y ys ih => simp only [List.cons_append, List.length_cons, List.getElem_cons_succ]; exact ih _

theorem stringMk_toList (s : String) : String.mk s.toList = s := rfl

theorem escapeList_of_clean (cs : List Char) (h : cs.any isEscGuardChar = false) :
    escapeList cs = cs := by
  induction cs with
  | nil => rfl
  | cons c rest ih =>
    simp only [List.any_cons, Bool.or_eq_false_iff] at h
    have hc := h.1
    simp only [isEscGuardChar, Bool.or_eq_false_iff, decide_eq_false_iff_not] at hc
    rw [escapeList]
    rw [if_neg hc.1.1.1.1.1]
    rw [escChar, if_neg hc.1.1.1.1.2, if_neg hc.1.1.1.2, if_neg hc.1.1.2, if_neg hc.1.2,
      if_neg hc.2]
    simpa using ih h.2

/-- Members of the escaped output that are still escapable characters
can only be ampersands (the entity expansions contain ampersands but
never an angle bracket or quote). -/
theorem escapeList_special_only_amp (cs : List Char) :
    ∀ c ∈ escapeList cs, isEscGuardChar c = true → c = '&' := by
  induction cs with
  | nil => intro c hc; simp [escapeList] at hc
  | cons x rest ih =>
    intro c hc hguard
    rw [escapeList] at hc
    by_cases hx : x = '&'
    · rw [if_pos hx] at hc
      by_cases he : entityFollows rest
      · rw [if_pos he] at hc
        rcases List.mem_cons.mp hc with h | h
        · exact h
        · exact ih c h hguard
      · rw [if_neg he] at hc
        rcases List.mem_append.mp hc with h | h
        · fin_cases h <;> first | rfl | (exfalso; revert hguard; decide)
        · exact ih c h hguard
    · rw [if_neg hx] at hc
      rcases List.mem_append.mp hc with h | h
      · revert h
        rw [escChar]
        split
        · intro h; fin_cases h <;> first | rfl | (exfalso; revert hguard; decide)
        · split
          · intro h; fin_cases h <;> first | rfl | (exfalso; revert hguard; decide)
          · split
            · intro h; fin_cases h <;> first | rfl | (exfalso; revert hguard; decide)
            · split
              · intro h; fin_cases h <;> first | rfl | (exfalso; revert hguard; decide)
              · split
                · intro h; fin_cases h <;> first | rfl | (exfalso; revert hguard; decide)
                · intro h
                  rcases List.mem_singleton.mp h with rfl
                  exact absurd hguard (by simp_all [isEscGuardChar])
      · exact ih c h hguard

theorem escapeList_no_amp (cs : List Char) (h : '&' ∉ cs) :
    escapeList cs = cs.flatMap escChar := by
  induction cs with
  | nil => rfl
  | cons c rest ih =>
    have hc : c ≠ '&' := fun hcc => h (hcc ▸ List.mem_cons_self c rest)
    rw [escapeList, if_neg hc, List.flatMap_cons, ih (fun hm => h (List.mem_cons_of_mem c hm))]

theorem escapeExpression_eq_escapeList (s : String) :
    escapeExpression (some s) = String.mk (escapeList s.toList) := by
  rw [escapeExpression]
  split
  · rfl
  · next hguard =>
    rw [escapeList_of_clean s.toList (by simpa using hguard), stringMk_toList]

/-- Claim C4 counterexample: the ampersand of an input that already
reads as an entity reference is passed through rather than escaped to
`&amp;`, so not every occurrence of `&` is replaced. -/
theorem chosen_C4_counterexample :
    escapeExpression (some "&amp;") = "&amp;" ∧ escapeExpression (some "&amp;") ≠ "&amp;amp;" := by
  constructor
  · rfl
  · decide

/-- Claim C4 (amended): for every input string the rendering escape
replaces every occurrence of `<` `>` `"` `'` `` ` `` with its entity
form and replaces `&` with `&amp;` exactly when the ampersand does not
already begin an entity-like sequence (`&` followed by word characters
and `;`), which is passed through; the guard test never changes the
result; and text taken directly from markup (the record's `html`) is
passed through without escaping. -/
theorem chosen_C4_escape_amended :
    (∀ s : String, escapeExpression (some s) = String.mk (escapeList s.toList)) ∧
    (∀ s : String, ∀ c ∈ escapeList s.toList, isEscGuardChar c = true → c = '&') ∧
    (∀ rest : List Char, escapeList ('&' :: rest) =
      if entityFollows rest then '&' :: escapeList rest
      else "&amp;".toList ++ escapeList rest) ∧
    (∀ s : String, '&' ∉ s.toList → escapeList s.toList = s.toList.flatMap escChar) ∧
    (∀ (ai oi : Nat) (b : Option Nat) (gl : Option String) (gd : Bool) (o : HostOpt),
      o.text ≠ "" → (optionRecord ai oi b gl gd o).html = o.html) := by
  refine ⟨escapeExpression_eq_escapeList, fun s => escapeList_special_only_amp s.toList,
    fun rest => ?_, fun s => escapeList_no_amp s.toList, ?_⟩
  · rw [escapeList, if_pos rfl]
  · intro ai oi b gl gd o h
    rw [optionRecord, if_pos h]

/-- Witness for claim C4's amended theorem at concrete inputs. -/
theorem chosen_C4_escape_amended_witness :
    escapeExpression (some "a<b") = String.mk (escapeList "a<b".toList) ∧
    escapeList "a<b".toList = "a<b".toList.flatMap escChar ∧
    (optionRecord 0 0 none none false { text := "x", html := "<b>x</b>" }).html = "<b>x</b>" := by
  refine ⟨chosen_C4_escape_amended.1 "a<b",
    chosen_C4_escape_amended.2.2.2.1 "a<b" (by decide),
    chosen_C4_escape_amended.2.2.2.2 0 0 none none false { text := "x", html := "<b>x</b>" }
      (by decide)⟩

theorem countNE_cons_ne (o : HostOpt) (os : List HostOpt) (h : o.text ≠ "") :
    countNE (o :: os) = 1 + countNE os := by
  simp [countNE, List.filter_cons, h, Nat.add_comm]

theorem countNE_cons_eq (o : HostOpt) (os : List HostOpt) (h : o.text = "") :
    countNE (o :: os) = countNE os := by
  simp [countNE, List.filter_cons, h]

theorem length_append_cons (p q : List α) (x : α) :
    (p ++ x :: q).length = p.length + 1 + q.length := by
  simp; omega

/-- Walking the children of one group from a parser state whose array
is `p ++ g0 :: done` (the group record at index `p.length`) bumps the
group's `children` by the number of non-empty children and appends
exactly one record per child. -/
theorem add_option_foldl (cs : List HostOpt) (oi : Nat) (p done : List ResultItem)
    (g0 : ResultItem) (gdis : Bool) :
    cs.foldl (fun s c => add_option s c (some p.length) gdis)
        ⟨oi, p ++ g0 :: done⟩ =
      ⟨oi + cs.length,
       p ++ { g0 with children := g0.children + countNE cs } ::
         (done ++ childChunk (p.length + 1 + done.length) oi p.length g0.label gdis cs)⟩ := by
  induction cs generalizing oi done g0 with
  | nil =>
    simp [childChunk, countNE]
  | cons c cs ih =>
    rw [List.foldl_cons]
    by_cases h : c.text = ""
    · have hstep : add_option ⟨oi, p ++ g0 :: done⟩ c (some p.length) gdis =
          ⟨oi + 1, p ++ g0 :: (done ++
            [optionRecord (p.length + 1 + done.length) oi (some p.length)
              (some g0.label) gdis c])⟩ := by
        simp [add_option, h, optionRecord, length_append_cons]
        omega
      rw [hstep, ih]
      rw [countNE_cons_eq c cs h, childChunk, optionRecord, if_neg (by simp [h])]
      simp [Nat.add_assoc, Nat.add_comm, Nat.add_left_comm]
    · have hne : c.text ≠ "" := h
      have hstep : add_option ⟨oi, p ++ g0 :: done⟩ c (some p.length) gdis =
          ⟨oi + 1, p ++ { g0 with children := g0.children + 1 } :: (done ++
            [optionRecord (p.length + 1 + done.length) oi (some p.length)
              (some g0.label) gdis c])⟩ := by
        simp [add_option, hne, updAt_append_middle, optionRecord, get?_append_middle,
          length_append_cons]
        refine ⟨by omega, ?_⟩
        rw [getElem_append_middle]
      rw [hstep, ih]
      rw [countNE_cons_ne c cs hne, childChunk, optionRecord, if_pos hne]
      simp [Nat.add_assoc, Nat.add_comm, Nat.add_left_comm]

theorem childChunk_length (cs : List HostOpt) (ai oi bIdx : Nat) (gl : String) (gdis : Bool) :
    (childChunk ai oi bIdx gl gdis cs).length = cs.length := by
  induction cs generalizing ai oi with
  | nil => rfl
  | cons c cs ih => simpa [childChunk] using ih _ _

theorem nodeChunk_length (n : HostNode) (ai oi : Nat) :
    (nodeChunk ai oi n).length = nodeChunkLen n := by
  cases n with
  | option o => rfl
  | group g =>
    simp [nodeChunk, nodeChunkLen, childChunk_length]
    omega

/-- `add_node` appends exactly the closed-form chunk of the node and
advances the host ordinal by the node's option count. -/
theorem add_node_eq (st : ParserState) (n : HostNode) :
    add_node st n = ⟨st.options_index + nodeOptCount n,
      st.parsed ++ nodeChunk st.parsed.length st.options_index n⟩ := by
  cases n with
  | option o =>
    by_cases h : o.text = ""
    · simp [add_node, add_option, h, nodeOptCount, nodeChunk, optionRecord]
    · simp [add_node, add_option, h, nodeOptCount, nodeChunk, optionRecord]
  | group g =>
    rw [add_node, add_group]
    have hfold := add_option_foldl g.children st.options_index st.parsed []
      { array_index := st.parsed.length
        group := true
        label := escapeExpression (some g.label)
        title := jsTitle g.title
        children := 0
        disabled := g.disabled
        classes := g.classes } g.disabled
    simp only [List.append_nil, List.nil_append, List.length_nil, Nat.add_zero] at hfold
    rw [hfold]
    simp [nodeOptCount, nodeChunk, groupRecord]

/-- Closed form of the whole parser run from an arbitrary state. -/
theorem foldl_add_node_eq (ns : List HostNode) (st : ParserState) :
    ns.foldl add_node st = ⟨st.options_index + totalOptCount ns,
      st.parsed ++ chunksFrom st.parsed.length st.options_index ns⟩ := by
  induction ns generalizing st with
  | nil => simp [totalOptCount, chunksFrom]
  | cons n ns ih =>
    rw [List.foldl_cons, add_node_eq, ih]
    simp only [ParserState.mk.injEq]
    constructor
    · simp [totalOptCount]
      omega
    · rw [chunksFrom]
      simp [List.length_append, nodeChunk_length, Nat.add_assoc]

/-- `select_to_array` is the chunked closed form. -/
theorem select_to_array_eq (ns : List HostNode) :
    select_to_array ns = chunksFrom 0 0 ns := by
  rw [select_to_array, foldl_add_node_eq]
  rfl

theorem childChunk_filter_count (cs : List HostOpt) (ai oi bIdx : Nat) (gl : String)
    (gdis : Bool) :
    ((childChunk ai oi bIdx gl gdis cs).filter fun r => !r.group && !r.empty).length
      = countNE cs := by
  induction cs generalizing ai oi with
  | nil => rfl
  | cons c cs ih =>
    by_cases h : c.text = ""
    · rw [childChunk, countNE_cons_eq c cs h, List.filter_cons]
      simp [optionRecord, h, ih]
    · rw [childChunk, countNE_cons_ne c cs h, List.filter_cons]
      simp [optionRecord, h, ih]
      omega

theorem chunksFrom_filter_count (ns : List HostNode) (ai oi : Nat) :
    ((chunksFrom ai oi ns).filter fun r => !r.group && !r.empty).length
      = ((hostOptions ns).filter fun o => o.text ≠ "").length := by
  induction ns generalizing ai oi with
  | nil => rfl
  | cons n ns ih =>
    cases n with
    | option o =>
      rw [chunksFrom, nodeChunk, hostOptions]
      by_cases h : o.text = "" <;>
        simp [List.filter_cons, optionRecord, h, ih]
    | group g =>
      rw [chunksFrom, nodeChunk, hostOptions]
      rw [List.filter_append, List.length_append, List.filter_cons, List.filter_append,
        List.length_append]
      simp [groupRecord, childChunk_filter_count, countNE, ih]

theorem childChunk_map_text (cs : List HostOpt) (ai oi bIdx : Nat) (gl : String)
    (gdis : Bool) :
    (childChunk ai oi bIdx gl gdis cs).map itemText = cs.map (·.text) := by
  induction cs generalizing ai oi with
  | nil => rfl
  | cons c cs ih =>
    rw [childChunk, List.map_cons, List.map_cons, ih]
    by_cases h : c.text = "" <;> simp [optionRecord, itemText, h]

theorem chunksFrom_map_text (ns : List HostNode) (ai oi : Nat) :
    (chunksFrom ai oi ns).map itemText = ns.flatMap nodeTexts := by
  induction ns generalizing ai oi with
  | nil => rfl
  | cons n ns ih =>
    cases n with
    | option o =>
      rw [chunksFrom, nodeChunk, List.flatMap_cons, nodeTexts]
      by_cases h : o.text = "" <;> simp [optionRecord, itemText, h, ih]
    | group g =>
      rw [chunksFrom, nodeChunk, List.flatMap_cons, nodeTexts]
      simp [groupRecord, itemText, childChunk_map_text, ih]

theorem childChunk_mem_shape (cs : List HostOpt) (ai oi bIdx : Nat) (gl : String)
    (gdis : Bool) :
    ∀ r ∈ childChunk ai oi bIdx gl gdis cs, r.group = false ∧ (r.empty = true ↔ r.text = "") := by
  induction cs generalizing ai oi with
  | nil => intro r hr; simp [childChunk] at hr
  | cons c cs ih =>
    intro r hr
    rw [childChunk] at hr
    rcases List.mem_cons.mp hr with rfl | hr
    · by_cases h : c.text = "" <;> simp [optionRecord, h]
    · exact ih _ _ r hr

theorem chunksFrom_mem_shape (ns : List HostNode) (ai oi : Nat) :
    ∀ r ∈ chunksFrom ai oi ns, r.group = false → (r.empty = true ↔ r.text = "") := by
  induction ns generalizing ai oi with
  | nil => intro r hr; simp [chunksFrom] at hr
  | cons n ns ih =>
    intro r hr hg
    rw [chunksFrom] at hr
    rcases List.mem_append.mp hr with hr | hr
    · cases n with
      | option o =>
        rw [nodeChunk] at hr
        rcases List.mem_singleton.mp hr with rfl
        by_cases h : o.text = "" <;> simp [optionRecord, h]
      | group g =>
        rw [nodeChunk] at hr
        rcases List.mem_cons.mp hr with rfl | hr
        · simp [groupRecord] at hg
        · exact (childChunk_mem_shape _ _ _ _ _ _ r hr).2
    · exact ih _ _ r hr hg

/-- Claim C5: after `parse` the number of non-empty Option records
equals the number of host options with non-empty display text; the
flattening preserves input order (each group record immediately
followed by its own children, witnessed on display texts); an
empty-text entry is recorded with `empty = true`; and empty records
are excluded by the include-in-results predicate, hence from all
search and render consideration. -/
theorem chosen_C5_parse (ns : List HostNode) :
    ((select_to_array ns).filter fun r => !r.group && !r.empty).length
        = ((hostOptions ns).filter fun o => o.text ≠ "").length ∧
    (select_to_array ns).map itemText = ns.flatMap nodeTexts ∧
    (∀ r ∈ select_to_array ns, r.group = false → (r.empty = true ↔ r.text = "")) ∧
    (∀ (cfg : Config) (r : ResultItem), r.empty = true →
      include_option_in_results cfg r = false) := by
  rw [select_to_array_eq]
  refine ⟨chunksFrom_filter_count ns 0 0, chunksFrom_map_text ns 0 0,
    chunksFrom_mem_shape ns 0 0, ?_⟩
  intro cfg r h
  rw [include_option_in_results]
  split
  · rfl
  · split
    · rfl
    · simp [h]

/-- Witness for claim C5 on a concrete host list (a group with an
empty-text child, a plain option, an empty placeholder). -/
theorem chosen_C5_parse_witness :
    ((select_to_array [HostNode.group { label := "G", children :=
        [{ text := "a" }, { text := "" }] }, HostNode.option { text := "b" },
        HostNode.option { text := "" }]).filter fun r => !r.group && !r.empty).length
      = ((hostOptions [HostNode.group { label := "G", children :=
          [{ text := "a" }, { text := "" }] }, HostNode.option { text := "b" },
          HostNode.option { text := "" }]).filter fun o => o.text ≠ "").length ∧
    include_option_in_results {} { empty := true } = false := by
  exact ⟨(chosen_C5_parse [HostNode.group { label := "G", children :=
      [{ text := "a" }, { text := "" }] }, HostNode.option { text := "b" },
      HostNode.option { text := "" }]).1,
    (chosen_C5_parse [HostNode.group { label := "G", children :=
      [{ text := "a" }, { text := "" }] }, HostNode.option { text := "b" },
      HostNode.option { text := "" }]).2.2.2 {} { empty := true } rfl⟩

theorem get?_append_plus (p q : List α) (k : Nat) :
    (p ++ q).get? (p.length + k) = q.get? k := by
  induction p with
  | nil => simp
  | cons x xs ih => simpa [Nat.succ_add] using ih

theorem chunksFrom_length (ns : List HostNode) (ai oi : Nat) :
    (chunksFrom ai oi ns).length = totalChunkLen ns := by
  induction ns generalizing ai oi with
  | nil => rfl
  | cons n ns ih =>
    rw [chunksFrom, List.length_append, nodeChunk_length, ih]
    simp [totalChunkLen]

theorem chunksFrom_append (xs ys : List HostNode) (ai oi : Nat) :
    chunksFrom ai oi (xs ++ ys) =
      chunksFrom ai oi xs ++ chunksFrom (ai + totalChunkLen xs) (oi + totalOptCount xs) ys := by
  induction xs generalizing ai oi with
  | nil => simp [chunksFrom, totalChunkLen, totalOptCount]
  | cons x xs ih =>
    rw [List.cons_append, chunksFrom, chunksFrom, ih, List.append_assoc]
    have h1 : ai + nodeChunkLen x + totalChunkLen xs = ai + totalChunkLen (x :: xs) := by
      simp [totalChunkLen]; omega
    have h2 : oi + nodeOptCount x + totalOptCount xs = oi + totalOptCount (x :: xs) := by
      simp [totalOptCount]; omega
    rw [h1, h2]

theorem childChunk_get? (cs : List HostOpt) (t ai oi bIdx : Nat) (gl : String) (gdis : Bool) :
    (childChunk ai oi bIdx gl gdis cs).get? t =
      (cs.get? t).map fun o => optionRecord (ai + t) (oi + t) (some bIdx) (some gl) gdis o := by
  induction cs generalizing t ai oi with
  | nil => simp [childChunk]
  | cons c cs ih =>
    cases t with
    | zero => simp [childChunk]
    | succ m =>
      rw [childChunk, List.get?_cons_succ, List.get?_cons_succ, ih m (ai + 1) (oi + 1)]
      have h1 : ai + 1 + m = ai + (m + 1) := by omega
      have h2 : oi + 1 + m = oi + (m + 1) := by omega
      rw [h1, h2]

/-- Claim C10: a parsed Group record's `children` count equals the
number of its children with non-empty display text, while an
empty-text child is still emitted as a record with its own flat index
and host ordinal, without incrementing the parent's count. -/
theorem chosen_C10_group_children (pre : List HostNode) (g : HostGroup)
    (post : List HostNode) :
    (select_to_array (pre ++ HostNode.group g :: post)).get? (totalChunkLen pre)
        = some (groupRecord (totalChunkLen pre) g) ∧
    (groupRecord (totalChunkLen pre) g).children = countNE g.children ∧
    (∀ (t : Nat) (o : HostOpt), g.children.get? t = some o → o.text = "" →
      (select_to_array (pre ++ HostNode.group g :: post)).get?
          (totalChunkLen pre + 1 + t)
        = some { array_index := totalChunkLen pre + 1 + t
                 options_index := totalOptCount pre + t
                 empty := true }) := by
  rw [select_to_array_eq, chunksFrom_append]
  have hlen : (chunksFrom 0 0 pre).length = totalChunkLen pre := chunksFrom_length pre 0 0
  refine ⟨?_, rfl, ?_⟩
  · have := get?_append_plus (chunksFrom 0 0 pre)
      (chunksFrom (0 + totalChunkLen pre) (0 + totalOptCount pre) (HostNode.group g :: post)) 0
    rw [hlen] at this
    rw [Nat.add_zero] at this
    rw [this]
    simp [chunksFrom, nodeChunk]
  · intro t o hto hot
    have hkey := get?_append_plus (chunksFrom 0 0 pre)
      (chunksFrom (0 + totalChunkLen pre) (0 + totalOptCount pre)
        (HostNode.group g :: post)) (t + 1)
    rw [hlen] at hkey
    have harith : totalChunkLen pre + 1 + t = totalChunkLen pre + (t + 1) := by omega
    rw [harith, hkey, chunksFrom, nodeChunk]
    have ht : t < g.children.length := (List.get?_eq_some.mp hto).1
    have hlt : t < (childChunk (0 + totalChunkLen pre + 1) (0 + totalOptCount pre)
        (0 + totalChunkLen pre) (escapeExpression (some g.label)) g.disabled
        g.children).length := by
      rw [childChunk_length]; exact ht
    rw [List.cons_append, List.get?_cons_succ, List.get?_append hlt, childChunk_get?, hto]
    simp [optionRecord, hot, Nat.add_assoc, Nat.add_comm, Nat.add_left_comm]

/-- Witness for claim C10 on a concrete host list. -/
theorem chosen_C10_group_children_witness :
    (select_to_array [HostNode.option { text := "x" }, HostNode.group { label := "G", children := [{ text := "" }, { text := "a" }] }]).get? 1
      = some (groupRecord 1 { label := "G", children := [{ text := "" }, { text := "a" }] }) ∧
    (select_to_array [HostNode.option { text := "x" }, HostNode.group { label := "G", children := [{ text := "" }, { text := "a" }] }]).get? 2
      = some { array_index := 2, options_index := 1, empty := true } := by
  refine ⟨(chosen_C10_group_children [HostNode.option { text := "x" }] { label := "G", children := [{ text := "" }, { text := "a" }] } []).1,
    (chosen_C10_group_children [HostNode.option { text := "x" }] { label := "G", children := [{ text := "" }, { text := "a" }] } []).2.2 0 { text := "" } (by decide) rfl⟩

/-- Claim C3 counterexample: with "contains" mode disabled the compiled
highlight pattern is not anchor-free - it carries the word-boundary
assertion `\b`, and that assertion is observable: the highlight pattern
for query `lan` finds nothing in `plan`, while the same pattern without
the fragment matches inside the word. -/
theorem chosen_C3_counterexample :
    (get_highlight_regex (set_default_values false {}) (regexEscape "lan")).anchor = "\\b" ∧
    (get_highlight_regex (set_default_values false {}) (regexEscape "lan")).anchor ≠ "" ∧
    rtest (get_highlight_regex (set_default_values false {}) (regexEscape "lan")) "lan" "plan"
      = false ∧
    rtest { anchor := "", body := regexEscape "lan", flags := "i" } "lan" "plan" = true := by
  refine ⟨rfl, by decide, by decide, by decide⟩

/-- Claim C3 (amended): the highlight pattern is built with the same
escaped query body and the same case-sensitivity flag as the match
pattern, but in non-"contains" mode its anchor fragment is the word
boundary `\b` where the match pattern uses the string-start anchor `^`
(both carry no fragment in "contains" mode). -/
theorem chosen_C3_highlight_regex (cfg : Config) (a : String) :
    (get_highlight_regex cfg a).body = (get_search_regex cfg a).body ∧
    (get_highlight_regex cfg a).flags = (get_search_regex cfg a).flags ∧
    (get_search_regex cfg a).anchor = (if cfg.search_contains then "" else "^") ∧
    (get_highlight_regex cfg a).anchor = (if cfg.search_contains then "" else "\\b") :=
  ⟨rfl, rfl, rfl, rfl⟩

/-- Claim C8: with split-word search enabled under the default
prefix/case-insensitive configuration, query `lan` does not match the
option text `New Zealand` (no whitespace token starts with it), while
query `Zea` does (token `Zealand`). -/
theorem chosen_C8_split_word_search :
    (set_default_values false {}).enable_split_word_search = true ∧
    search_string_match (set_default_values false {}) "New Zealand"
        (get_search_regex (set_default_values false {}) (regexEscape "lan")) "lan" = false ∧
    search_string_match (set_default_values false {}) "New Zealand"
        (get_search_regex (set_default_values false {}) (regexEscape "Zea")) "Zea" = true := by
  refine ⟨rfl, by decide, by decide⟩

theorem get?_updAt_ne (l : List α) (i j : Nat) (f : α → α) (h : j ≠ i) :
    (updAt l i f).get? j = l.get? j := by
  rw [get?_updAt, if_neg h]

theorem item_ext (a b : ResultItem) (hp : persistOf a = persistOf b)
    (h1 : a.search_match = b.search_match) (h2 : a.group_match = b.group_match)
    (h3 : a.active_options = b.active_options) (h4 : a.search_text = b.search_text) :
    a = b := by
  cases a; cases b
  simp only [persistOf, Persist.mk.injEq] at hp
  simp_all

theorem map_persist_updAt (f : ResultItem → ResultItem)
    (hf : ∀ x, persistOf (f x) = persistOf x) (l : List ResultItem) (i j : Nat) :
    ((updAt l i f).get? j).map persistOf = (l.get? j).map persistOf := by
  rw [get?_updAt]
  split
  · cases h : l.get? j <;> simp [hf]
  · rfl

theorem mp_upd_sm (l : List ResultItem) (i j : Nat) (v : Bool) :
    ((updAt l i fun c => { c with search_match := v }).get? j).map persistOf
      = (l.get? j).map persistOf :=
  map_persist_updAt (fun c => { c with search_match := v }) (fun _ => rfl) l i j

theorem mp_upd_reset (l : List ResultItem) (i j : Nat) :
    ((updAt l i fun c => { c with group_match := false, active_options := 0 }).get? j).map
        persistOf = (l.get? j).map persistOf :=
  map_persist_updAt (fun c => { c with group_match := false, active_options := 0 })
    (fun _ => rfl) l i j

theorem mp_upd_ao (l : List ResultItem) (i j : Nat) :
    ((updAt l i fun c => { c with active_options := c.active_options + 1 }).get? j).map
        persistOf = (l.get? j).map persistOf :=
  map_persist_updAt (fun c => { c with active_options := c.active_options + 1 })
    (fun _ => rfl) l i j

theorem mp_upd_st (l : List ResultItem) (i j : Nat) :
    ((updAt l i fun c =>
        { c with search_text := if c.group then c.label else c.html }).get? j).map persistOf
      = (l.get? j).map persistOf :=
  map_persist_updAt (fun c => { c with search_text := if c.group then c.label else c.html })
    (fun _ => rfl) l i j

theorem mp_upd_ann (l : List ResultItem) (i j : Nat) (b : JsRegex) (g : String) :
    ((updAt l i fun c =>
        { c with search_text := annotateMatch b g c.search_text }).get? j).map persistOf
      = (l.get? j).map persistOf :=
  map_persist_updAt (fun c => { c with search_text := annotateMatch b g c.search_text })
    (fun _ => rfl) l i j

theorem mp_upd_gm (l : List ResultItem) (i j : Nat) :
    ((updAt l i fun c => { c with group_match := true }).get? j).map persistOf
      = (l.get? j).map persistOf :=
  map_persist_updAt (fun c => { c with group_match := true }) (fun _ => rfl) l i j

theorem updAt_const_of_get {l : List α} {k : Nat} {c0 : α} (hk : l.get? k = some c0)
    (f : α → α) : updAt l k f = updAt l k fun _ => f c0 := by
  induction l generalizing k with
  | nil => rfl
  | cons x xs ih =>
    cases k with
    | zero =>
      simp only [List.get?] at hk
      cases hk
      rfl
    | succ n =>
      simp only [List.get?] at hk
      simp [updAt, ih hk]

theorem updAt_const_after (l : List α) (k : Nat) (f : α → α) (y : α) :
    updAt (updAt l k f) k (fun _ => y) = updAt l k fun _ => y := by
  induction l generalizing k with
  | nil => rfl
  | cons x xs ih =>
    cases k with
    | zero => rfl
    | succ n => simp [updAt, ih]

theorem updAt_comm (l : List α) (i j : Nat) (f g : α → α) (h : i ≠ j) :
    updAt (updAt l i f) j g = updAt (updAt l j g) i f := by
  induction l generalizing i j with
  | nil => rfl
  | cons x xs ih =>
    cases i with
    | zero =>
      cases j with
      | zero => exact absurd rfl h
      | succ m => rfl
    | succ n =>
      cases j with
      | zero => rfl
      | succ m => simp [updAt, ih n m (fun hn => h (by simp [hn]))]

theorem get?_updAt_self {l : List α} {k : Nat} {c0 : α} (hk : l.get? k = some c0)
    (f : α → α) : (updAt l k f).get? k = some (f c0) := by
  rw [get?_updAt, if_pos rfl, hk]
  rfl

theorem updAt_chain2 {dat : List α} {k : Nat} {c0 : α} (hk : dat.get? k = some c0)
    (f1 f2 : α → α) :
    updAt (updAt dat k f1) k f2 = updAt dat k fun _ => f2 (f1 c0) := by
  rw [updAt_const_of_get hk f1, updAt_const_of_get (get?_updAt_self hk _) f2,
    updAt_const_after]

theorem updAt_chain3 {dat : List α} {k : Nat} {c0 : α} (hk : dat.get? k = some c0)
    (f1 f2 f3 : α → α) :
    updAt (updAt (updAt dat k f1) k f2) k f3 = updAt dat k fun _ => f3 (f2 (f1 c0)) := by
  rw [updAt_chain2 hk f1 f2, updAt_chain2 hk _ f3]

theorem updAt_chain4 {dat : List α} {k : Nat} {c0 : α} (hk : dat.get? k = some c0)
    (f1 f2 f3 f4 : α → α) :
    updAt (updAt (updAt (updAt dat k f1) k f2) k f3) k f4
      = updAt dat k fun _ => f4 (f3 (f2 (f1 c0))) := by
  rw [updAt_chain3 hk f1 f2 f3, updAt_chain2 hk _ f4]

theorem updAt_chain5 {dat : List α} {k : Nat} {c0 : α} (hk : dat.get? k = some c0)
    (f1 f2 f3 f4 f5 : α → α) :
    updAt (updAt (updAt (updAt (updAt dat k f1) k f2) k f3) k f4) k f5
      = updAt dat k fun _ => f5 (f4 (f3 (f2 (f1 c0)))) := by
  rw [updAt_chain4 hk f1 f2 f3 f4, updAt_chain2 hk _ f5]

theorem getElem?_updAt (l : List α) (i j : Nat) (f : α → α) :
    (updAt l i f)[j]? = if j = i then (l[j]?).map f else l[j]? := by
  simpa only [← List.get?_eq_getElem?] using get?_updAt l i j f

theorem updAt_par_chain2 {dat : List α} {gi k : Nat} {f0 : α} (hf : dat[gi]? = some f0)
    (hgik : gi ≠ k) (o p1 p2 : α → α) :
    updAt (updAt (updAt dat k o) gi p1) gi p2
      = updAt (updAt dat k o) gi fun _ => p2 (p1 f0) :=
  updAt_chain2 (by rw [get?_updAt_ne _ _ _ _ hgik, List.get?_eq_getElem?]; exact hf) p1 p2

theorem updAt_par_const {dat : List α} {gi k : Nat} {f0 : α} (hf : dat[gi]? = some f0)
    (hgik : gi ≠ k) (o p : α → α) :
    updAt (updAt dat k o) gi p = updAt (updAt dat k o) gi fun _ => p f0 :=
  updAt_const_of_get (by rw [get?_updAt_ne _ _ _ _ hgik, List.get?_eq_getElem?]; exact hf) p

/-- `winnowStep` coincides with its collapsed form whenever the
processed entry does not name itself as its own group. -/
theorem winnowStep_eq_spec (cfg : Config) (g : String) (d b : JsRegex)
    (dat : List ResultItem) (e : Nat) (k : Nat)
    (hself : ∀ c0, dat.get? k = some c0 → c0.group_array_index ≠ some k) :
    winnowStep cfg g d b (dat, e) k = winnowStepSpec cfg g d b dat e k := by
  cases hk : dat.get? k with
  | none => simp only [winnowStep, winnowStepSpec, hk]
  | some c0 =>
    have hne : c0.group_array_index ≠ some k := hself c0 hk
    cases hI : include_option_in_results cfg c0 with
    | false =>
      have hI2 : include_option_in_results cfg { c0 with search_match := false } = false := hI
      simp only [winnowStep, winnowStepSpec, hk]
      simp only [hI2, hI, Bool.not_false, if_true]
      rw [updAt_const_of_get hk]
    | true =>
      have hI2 : include_option_in_results cfg { c0 with search_match := false } = true := hI
      cases hgai : c0.group_array_index with
      | none =>
        cases hg : c0.group with
        | true =>
          cases hgs : cfg.group_search with
          | false =>
            simp only [winnowStep, winnowStepSpec, hk]
            simp only [hI2, hI, Bool.not_true, if_false]
            simp [hgai, hg, hgs]
            rw [updAt_chain3 hk]
            simp_all
          | true =>
            cases hsm : search_string_match cfg c0.label d g with
            | false =>
              simp only [winnowStep, winnowStepSpec, hk]
              simp only [hI2, hI, Bool.not_true, if_false]
              simp [hgai, hg, hgs, hsm]
              rw [updAt_chain4 hk]
              simp_all
            | true =>
              by_cases hlen : g.length = 0
              · simp only [winnowStep, winnowStepSpec, hk]
                simp only [hI2, hI, Bool.not_true, if_false]
                simp [hgai, hg, hgs, hsm, hlen]
                rw [updAt_chain4 hk]
                simp_all
              · simp only [winnowStep, winnowStepSpec, hk]
                simp only [hI2, hI, Bool.not_true, if_false]
                simp [hgai, hg, hgs, hsm, hlen]
                rw [updAt_chain5 hk]
                simp_all
        | false =>
          cases hsm : search_string_match cfg c0.html d g with
          | false =>
            simp only [winnowStep, winnowStepSpec, hk]
            simp only [hI2, hI, Bool.not_true, if_false]
            simp [hgai, hg, hsm]
            rw [updAt_chain3 hk]
            simp_all
          | true =>
            by_cases hlen : g.length = 0
            · simp only [winnowStep, winnowStepSpec, hk]
              simp only [hI2, hI, Bool.not_true, if_false]
              simp [hgai, hg, hsm, hlen]
              rw [updAt_chain3 hk]
              simp_all
            · simp only [winnowStep, winnowStepSpec, hk]
              simp only [hI2, hI, Bool.not_true, if_false]
              simp [hgai, hg, hsm, hlen]
              rw [updAt_chain4 hk]
              simp_all
      | some gi =>
        have hgik : gi ≠ k := fun h => hne (h ▸ hgai)
        cases hf : dat.get? gi with
        | none =>
          rw [List.get?_eq_getElem?] at hf
          cases hg : c0.group with
          | true =>
            cases hgs : cfg.group_search with
            | false =>
              simp only [winnowStep, winnowStepSpec, hk]
              simp only [hI2, hI, Bool.not_true, if_false]
              simp [hgai, hg, hgs, getElem?_updAt, hgik, hf]
              rw [updAt_chain3 hk]
              simp_all
            | true =>
              cases hsm : search_string_match cfg c0.label d g with
              | false =>
                simp only [winnowStep, winnowStepSpec, hk]
                simp only [hI2, hI, Bool.not_true, if_false]
                simp [hgai, hg, hgs, hsm, getElem?_updAt, hgik, hf]
                rw [updAt_chain4 hk]
                simp_all
              | true =>
                by_cases hlen : g.length = 0
                · simp only [winnowStep, winnowStepSpec, hk]
                  simp only [hI2, hI, Bool.not_true, if_false]
                  simp [hgai, hg, hgs, hsm, hlen, getElem?_updAt, hgik, hf]
                  rw [updAt_chain4 hk]
                  simp_all
                · simp only [winnowStep, winnowStepSpec, hk]
                  simp only [hI2, hI, Bool.not_true, if_false]
                  simp [hgai, hg, hgs, hsm, hlen, getElem?_updAt, hgik, hf]
                  rw [updAt_chain5 hk]
                  simp_all
          | false =>
            cases hsm : search_string_match cfg c0.html d g with
            | false =>
              simp only [winnowStep, winnowStepSpec, hk]
              simp only [hI2, hI, Bool.not_true, if_false]
              simp [hgai, hg, hsm, getElem?_updAt, hgik, hf]
              rw [updAt_chain3 hk]
              simp_all
            | true =>
              by_cases hlen : g.length = 0
              · simp only [winnowStep, winnowStepSpec, hk]
                simp only [hI2, hI, Bool.not_true, if_false]
                simp [hgai, hg, hsm, hlen, getElem?_updAt, hgik, hf]
                rw [updAt_chain3 hk]
                simp_all
              · simp only [winnowStep, winnowStepSpec, hk]
                simp only [hI2, hI, Bool.not_true, if_false]
                simp [hgai, hg, hsm, hlen, getElem?_updAt, hgik, hf]
                rw [updAt_chain4 hk]
                simp_all
        | some f0 =>
          rw [List.get?_eq_getElem?] at hf
          cases hg : c0.group with
          | true =>
            cases hgs : cfg.group_search with
            | false =>
              simp only [winnowStep, winnowStepSpec, hk]
              simp only [hI2, hI, Bool.not_true, if_false]
              simp [hgai, hg, hgs, getElem?_updAt, hgik, hf]
              rw [updAt_comm _ gi k _ _ hgik, updAt_chain3 hk]
              simp_all
            | true =>
              cases hsm : search_string_match cfg c0.label d g with
              | false =>
                cases hfsm : f0.search_match with
                | false =>
                  simp only [winnowStep, winnowStepSpec, hk]
                  simp only [hI2, hI, Bool.not_true, if_false]
                  simp [hgai, hg, hgs, hsm, getElem?_updAt, hgik, hf, hfsm]
                  rw [updAt_comm _ gi k _ _ hgik, updAt_comm _ gi k _ _ hgik,
                    updAt_chain4 hk]
                  simp_all
                | true =>
                  simp only [winnowStep, winnowStepSpec, hk]
                  simp only [hI2, hI, Bool.not_true, if_false]
                  simp [hgai, hg, hgs, hsm, getElem?_updAt, hgik, hf, hfsm]
                  rw [updAt_comm _ gi k _ _ hgik, updAt_comm _ gi k _ _ hgik,
                    updAt_comm _ gi k _ _ hgik, updAt_chain5 hk]
                  simp_all
              | true =>
                by_cases hlen : g.length = 0
                · simp only [winnowStep, winnowStepSpec, hk]
                  simp only [hI2, hI, Bool.not_true, if_false]
                  simp [hgai, hg, hgs, hsm, hlen, getElem?_updAt, hgik, hf]
                  rw [updAt_comm _ gi k _ _ hgik, updAt_comm _ gi k _ _ hgik,
                    updAt_chain4 hk, updAt_par_chain2 hf hgik]
                  conv_rhs => rw [updAt_par_const hf hgik]
                  simp_all
                · simp only [winnowStep, winnowStepSpec, hk]
                  simp only [hI2, hI, Bool.not_true, if_false]
                  simp [hgai, hg, hgs, hsm, hlen, getElem?_updAt, hgik, hf]
                  rw [updAt_comm _ gi k _ _ hgik, updAt_comm _ gi k _ _ hgik,
                    updAt_comm _ gi k _ _ hgik, updAt_chain5 hk, updAt_par_chain2 hf hgik]
                  conv_rhs => rw [updAt_par_const hf hgik]
                  simp_all
          | false =>
            cases hsm : search_string_match cfg c0.html d g with
            | false =>
              cases hfsm : f0.search_match with
              | false =>
                simp only [winnowStep, winnowStepSpec, hk]
                simp only [hI2, hI, Bool.not_true, if_false]
                simp [hgai, hg, hsm, getElem?_updAt, hgik, hf, hfsm]
                rw [updAt_comm _ gi k _ _ hgik, updAt_comm _ gi k _ _ hgik,
                  updAt_chain3 hk]
                simp_all
              | true =>
                simp only [winnowStep, winnowStepSpec, hk]
                simp only [hI2, hI, Bool.not_true, if_false]
                simp [hgai, hg, hsm, getElem?_updAt, hgik, hf, hfsm]
                rw [updAt_comm _ gi k _ _ hgik, updAt_comm _ gi k _ _ hgik,
                  updAt_comm _ gi k _ _ hgik, updAt_chain4 hk]
                simp_all
            | true =>
              by_cases hlen : g.length = 0
              · simp only [winnowStep, winnowStepSpec, hk]
                simp only [hI2, hI, Bool.not_true, if_false]
                simp [hgai, hg, hsm, hlen, getElem?_updAt, hgik, hf]
                rw [updAt_comm _ gi k _ _ hgik, updAt_comm _ gi k _ _ hgik,
                  updAt_chain3 hk, updAt_par_chain2 hf hgik]
                conv_rhs => rw [updAt_par_const hf hgik]
                simp_all
              · simp only [winnowStep, winnowStepSpec, hk]
                simp only [hI2, hI, Bool.not_true, if_false]
                simp [hgai, hg, hsm, hlen, getElem?_updAt, hgik, hf]
                rw [updAt_comm _ gi k _ _ hgik, updAt_comm _ gi k _ _ hgik,
                  updAt_comm _ gi k _ _ hgik, updAt_chain4 hk, updAt_par_chain2 hf hgik]
                conv_rhs => rw [updAt_par_const hf hgik]
                simp_all

theorem mp_upd_const {l : List ResultItem} {k : Nat} {c0 r : ResultItem}
    (hk : l.get? k = some c0) (hr : persistOf r = persistOf c0) (j : Nat) :
    ((updAt l k fun _ => r).get? j).map persistOf = (l.get? j).map persistOf := by
  rw [get?_updAt]
  split
  · next h => subst h; rw [hk]; simp [hr]
  · rfl

theorem mp_upd_aogm (l : List ResultItem) (i j : Nat) :
    ((updAt l i fun f =>
        { f with active_options := f.active_options + 1, group_match := true }).get? j).map
      persistOf = (l.get? j).map persistOf :=
  map_persist_updAt
    (fun f => { f with active_options := f.active_options + 1, group_match := true })
    (fun _ => rfl) l i j

theorem mp_upd_pair {l : List ResultItem} {k : Nat} {c0 : ResultItem}
    (hk : l.get? k = some c0) (r : ResultItem) (j : Nat) :
    ((updAt l k fun _ => r).get? j).map persistOf
      = if j = k then some (persistOf r) else (l.get? j).map persistOf := by
  rw [get?_updAt]
  split
  · next h => subst h; rw [hk]; rfl
  · rfl

theorem winnowStepSpec_persist (cfg : Config) (g : String) (d b : JsRegex)
    (dat : List ResultItem) (e : Nat) (k j : Nat) :
    (((winnowStepSpec cfg g d b dat e k).1.get? j).map persistOf)
      = ((dat.get? j).map persistOf) := by
  cases hk : dat.get? k with
  | none => simp only [winnowStepSpec, hk]
  | some c0 =>
    simp only [winnowStepSpec, hk]
    (repeat' split) <;>
    · dsimp only
      repeat first | rw [mp_upd_ao] | rw [mp_upd_aogm]
      first
        | rfl
        | (rw [mp_upd_pair hk]
           split
           · next hjk =>
               subst hjk
               rw [hk]
               cases hg : c0.group <;> simp [persistOf, hg]
           · rfl)

theorem wellFormedB_at {dat : List ResultItem} (hwf : wellFormedB dat = true)
    {j : Nat} {c : ResultItem} (hj : dat.get? j = some c) :
    (c.group = true → c.group_array_index = none ∧ c.selected = false ∧ c.empty = false) ∧
    (∀ gi, c.group_array_index = some gi → gi < j ∧
      ∃ p, dat.get? gi = some p ∧ p.group = true ∧ (p.disabled = true → c.disabled = true)) := by
  have hjlen : j < dat.length := (List.get?_eq_some.mp hj).1
  have hall := (List.all_eq_true.mp hwf) j (List.mem_range.mpr hjlen)
  rw [hj] at hall
  simp only [wfItem, Bool.and_eq_true] at hall
  constructor
  · intro hg
    rw [hg] at hall
    simp only [if_true, Bool.and_eq_true, Option.isNone_iff_eq_none, Bool.not_eq_true'] at hall
    exact ⟨hall.1.1.1, hall.1.1.2, hall.1.2⟩
  · intro gi hgi
    rw [hgi] at hall
    have h2 := hall.2
    simp only [decide_eq_true_eq, Bool.and_eq_true] at h2
    refine ⟨h2.1, ?_⟩
    cases hp : dat.get? gi with
    | none => rw [hp] at h2; simp at h2
    | some p =>
      rw [hp] at h2
      simp only [Bool.or_eq_true, Bool.and_eq_true, Bool.not_eq_true'] at h2
      refine ⟨p, rfl, h2.2.1, fun hd => ?_⟩
      rcases h2.2.2 with h | h
      · rw [hd] at h; cases h
      · exact h

theorem map_persist_get {d1 d2 : List ResultItem}
    (h : d1.map persistOf = d2.map persistOf) (j : Nat) :
    (d1.get? j).map persistOf = (d2.get? j).map persistOf := by
  rw [← List.get?_map, ← List.get?_map, h]

/-- Along any index trace, the raw winnow loop agrees with the
collapsed-step loop, provided the underlying data is well-formed (no
record is its own group). -/
theorem foldl_step_eq_spec (cfg : Config) (g : String) (d b : JsRegex)
    (dat : List ResultItem) (hwf : wellFormedB dat = true) :
    ∀ (l : List Nat) (S : List ResultItem × Nat),
      S.1.map persistOf = dat.map persistOf →
      l.foldl (winnowStep cfg g d b) S
        = l.foldl (fun acc j => winnowStepSpec cfg g d b acc.1 acc.2 j) S := by
  intro l
  induction l with
  | nil => intro S _; rfl
  | cons x l ih =>
    intro S hS
    rw [List.foldl_cons, List.foldl_cons]
    have hstep : winnowStep cfg g d b S x = winnowStepSpec cfg g d b S.1 S.2 x := by
      have := winnowStep_eq_spec cfg g d b S.1 S.2 x ?_
      · exact this
      · intro c0 hc0
        have hpp := map_persist_get hS x
        rw [hc0] at hpp
        cases hdx : dat.get? x with
        | none => rw [hdx] at hpp; simp at hpp
        | some cx =>
          rw [hdx] at hpp
          simp only [Option.map_some'] at hpp
          have hgai : c0.group_array_index = cx.group_array_index :=
            congrArg Persist.group_array_index (Option.some.inj hpp)
          intro hsome
          rw [hsome] at hgai
          rcases (wellFormedB_at hwf hdx).2 x hgai.symm with ⟨hlt, _⟩
          exact Nat.lt_irrefl x hlt
    rw [hstep]
    have hpers : (winnowStepSpec cfg g d b S.1 S.2 x).1.map persistOf = dat.map persistOf := by
      apply List.ext_get?
      intro j
      rw [List.get?_map, List.get?_map, winnowStepSpec_persist]
      exact map_persist_get hS j
    exact ih _ hpers

theorem map_sm_updAt (f : ResultItem → ResultItem)
    (hf : ∀ x, (f x).search_match = x.search_match) (l : List ResultItem) (i j : Nat) :
    ((updAt l i f).get? j).map (·.search_match) = (l.get? j).map (·.search_match) := by
  rw [get?_updAt]
  split
  · cases h : l.get? j <;> simp [hf]
  · rfl

theorem sm_upd_ao (l : List ResultItem) (i j : Nat) :
    ((updAt l i fun f => { f with active_options := f.active_options + 1 }).get? j).map
      (·.search_match) = (l.get? j).map (·.search_match) :=
  map_sm_updAt (fun f => { f with active_options := f.active_options + 1 }) (fun _ => rfl) l i j

theorem sm_upd_aogm (l : List ResultItem) (i j : Nat) :
    ((updAt l i fun f =>
        { f with active_options := f.active_options + 1, group_match := true }).get? j).map
      (·.search_match) = (l.get? j).map (·.search_match) :=
  map_sm_updAt
    (fun f => { f with active_options := f.active_options + 1, group_match := true })
    (fun _ => rfl) l i j

/-- A collapsed step at an index other than `j` never rewrites the
`search_match` flag of entry `j` (parent updates touch only the
active-options counter and group-match flag). -/
theorem specStep_sm_ne (cfg : Config) (g : String) (d b : JsRegex)
    (dat : List ResultItem) (e : Nat) (k j : Nat) (hkj : j ≠ k) :
    (((winnowStepSpec cfg g d b dat e k).1.get? j).map (·.search_match))
      = ((dat.get? j).map (·.search_match)) := by
  cases hk : dat.get? k with
  | none => simp only [winnowStepSpec, hk]
  | some c0 =>
    simp only [winnowStepSpec, hk]
    (repeat' split) <;>
    · dsimp only
      repeat first | rw [sm_upd_ao] | rw [sm_upd_aogm]
      first
        | rfl
        | rw [get?_updAt_ne _ _ _ _ hkj]

/-- Processing an included non-group entry with the empty query sets
its `search_match` flag. -/
theorem specStep_self_match (cfg : Config) (g : String) (d b : JsRegex)
    (dat : List ResultItem) (e : Nat) (j : Nat) (c : ResultItem)
    (hj : dat.get? j = some c) (hng : c.group = false)
    (hinc : include_option_in_results cfg c = true)
    (hmatch : search_string_match cfg c.html d g = true) :
    (((winnowStepSpec cfg g d b dat e j).1.get? j).map (·.search_match)) = some true := by
  simp only [winnowStepSpec, hj, hinc, hng, Bool.not_true, if_false, ite_false,
    Bool.false_eq_true, Bool.not_false, Bool.true_or, if_true, ite_true, hmatch]
  (repeat' split) <;>
  · dsimp only
    repeat first | rw [sm_upd_ao] | rw [sm_upd_aogm]
    rw [get?_updAt, if_pos rfl, hj]
    rfl

theorem specLoop_persist (cfg : Config) (g : String) (d b : JsRegex) :
    ∀ (l : List Nat) (S : List ResultItem × Nat) (j : Nat),
      ((l.foldl (fun acc k => winnowStepSpec cfg g d b acc.1 acc.2 k) S).1.get? j).map persistOf
        = (S.1.get? j).map persistOf := by
  intro l
  induction l with
  | nil => intro S j; rfl
  | cons x l ih =>
    intro S j
    rw [List.foldl_cons, ih]
    exact winnowStepSpec_persist cfg g d b S.1 S.2 x j

theorem specLoop_sm_ne (cfg : Config) (g : String) (d b : JsRegex) :
    ∀ (l : List Nat) (S : List ResultItem × Nat) (j : Nat), (∀ k ∈ l, j ≠ k) →
      ((l.foldl (fun acc k => winnowStepSpec cfg g d b acc.1 acc.2 k) S).1.get? j).map
          (·.search_match)
        = (S.1.get? j).map (·.search_match) := by
  intro l
  induction l with
  | nil => intro S j _; rfl
  | cons x l ih =>
    intro S j hl
    rw [List.foldl_cons, ih _ _ fun k hk => hl k (List.mem_cons_of_mem x hk)]
    exact specStep_sm_ne cfg g d b S.1 S.2 x j (hl x (List.mem_cons_self x l))

theorem include_persist (cfg : Config) {a b : ResultItem} (hp : persistOf a = persistOf b) :
    include_option_in_results cfg a = include_option_in_results cfg b := by
  have h1 : a.selected = b.selected := congrArg Persist.selected hp
  have h2 : a.disabled = b.disabled := congrArg Persist.disabled hp
  have h3 : a.empty = b.empty := congrArg Persist.empty hp
  simp [include_option_in_results, h1, h2, h3]

theorem empty_query_rtest (cfg : Config) (s : String) :
    rtest (get_search_regex cfg (regexEscape "")) "" s = true := by
  have hre : regexEscape "" = "" := rfl
  rw [hre]
  rw [rtest]
  cases hc : cfg.search_contains <;>
    cases hcs : cfg.case_sensitive_search <;>
      simp only [get_search_regex, hc, hcs, if_true, if_false, ite_true, ite_false] <;>
      first
        | (cases ht : s.toList <;> simp [foldCase, subIn, List.isPrefixOf])
        | simp [foldCase, List.isPrefixOf]

theorem empty_query_match (cfg : Config) (s : String) :
    search_string_match cfg s (get_search_regex cfg (regexEscape "")) "" = true := by
  rw [search_string_match, empty_query_rtest]
  rfl

theorem string_eq_empty_iff (q : String) : q = "" ↔ q.length = 0 := by
  constructor
  · intro h; rw [h]; rfl
  · intro h
    cases q with
    | mk l =>
      cases l with
      | nil => rfl
      | cons c cs => simp [String.length] at h

/-- Claim C6: with the empty query every eligible (included, non-group)
Option record is marked as matching by the filter pass, and the
"no results" outcome arises exactly when the total-match count is zero
and the query is non-empty - so the empty query never produces it. -/
theorem chosen_C6_empty_query :
    (∀ (cfg : Config) (dat : List ResultItem), wellFormedB dat = true →
      ∀ (j : Nat) (c : ResultItem), dat.get? j = some c → c.group = false →
        include_option_in_results cfg c = true →
        (((winnowPass cfg "" dat).1.get? j).map (·.search_match)) = some true) ∧
    (∀ (cfg : Config) (q : String) (dat : List ResultItem) (q' : String),
      (winnow_results cfg q dat).2 = WinnowOutcome.noResults q' ↔
        ((winnowPass cfg q dat).2 = 0 ∧ q ≠ "" ∧ q' = q)) ∧
    (∀ (cfg : Config) (dat : List ResultItem) (q' : String),
      (winnow_results cfg "" dat).2 ≠ WinnowOutcome.noResults q') := by
  have part2 : ∀ (cfg : Config) (q : String) (dat : List ResultItem) (q' : String),
      (winnow_results cfg q dat).2 = WinnowOutcome.noResults q' ↔
        ((winnowPass cfg q dat).2 = 0 ∧ q ≠ "" ∧ q' = q) := by
    intro cfg q dat q'
    rw [winnow_results]
    split
    · next h =>
      simp only [Bool.and_eq_true, decide_eq_true_eq] at h
      simp only [WinnowOutcome.noResults.injEq]
      constructor
      · intro hq
        exact ⟨h.1, fun he => h.2 (by rw [he]; rfl), hq.symm⟩
      · intro hq
        exact hq.2.2.symm
    · next h =>
      simp only [Bool.and_eq_true, decide_eq_true_eq, not_and] at h
      constructor
      · intro hq
        exact absurd hq (by simp)
      · intro hq
        exact absurd ((string_eq_empty_iff q).not.mp hq.2.1) (by
          intro hne
          exact hne (by
            by_contra hlen
            exact hq.2.1 ((string_eq_empty_iff q).mpr (by omega))) |>.elim)
  refine ⟨?_, part2, ?_⟩
  · intro cfg dat hwf j c hj hng hinc
    have hjlen : j < dat.length := (List.get?_eq_some.mp hj).1
    simp only [winnowPass]
    rw [foldl_step_eq_spec cfg "" _ _ dat hwf (List.range dat.length) (dat, 0) rfl]
    have hlen0 : dat.length = (j + 1) + (dat.length - (j + 1)) := by omega
    have hsplit : List.range dat.length
        = (List.range j ++ [j]) ++ (List.range (dat.length - (j + 1))).map ((j + 1) + ·) := by
      conv_lhs => rw [hlen0]
      rw [List.range_add, List.range_succ]
    rw [hsplit, List.foldl_append, List.foldl_append]
    rw [specLoop_sm_ne _ _ _ _ _ _ j ?hmem]
    case hmem =>
      intro k hk
      rcases List.mem_map.mp hk with ⟨m, _, rfl⟩
      omega
    rw [List.foldl_cons, List.foldl_nil]
    have hpj := specLoop_persist cfg "" (get_search_regex cfg (regexEscape ""))
      (get_highlight_regex cfg (regexEscape "")) (List.range j) (dat, 0) j
    cases hc1 : ((List.range j).foldl (fun acc k =>
        winnowStepSpec cfg "" (get_search_regex cfg (regexEscape ""))
          (get_highlight_regex cfg (regexEscape "")) acc.1 acc.2 k) (dat, 0)).1.get? j with
    | none => rw [hc1, hj] at hpj; simp at hpj
    | some c1 =>
      rw [hc1, hj] at hpj
      simp only [Option.map_some'] at hpj
      have hp : persistOf c1 = persistOf c := Option.some.inj hpj
      exact specStep_self_match cfg "" _ _ _ _ j c1 hc1
        ((congrArg Persist.group hp).trans hng)
        ((include_persist cfg hp).trans hinc)
        (empty_query_match cfg c1.html)
  · intro cfg dat q' hq
    rcases (part2 cfg "" dat q').mp hq with ⟨_, hne, _⟩
    exact hne rfl

/-- Witness for claim C6 on a concrete parsed model. -/
theorem chosen_C6_empty_query_witness :
    wellFormedB (select_to_array [HostNode.option { text := "a" }]) = true ∧
    (((winnowPass {} "" (select_to_array [HostNode.option { text := "a" }])).1.get? 0).map
      (·.search_match)) = some true := by
  refine ⟨by decide, chosen_C6_empty_query.1 {} _ (by decide) 0 { text := "a" }
    (by decide) rfl rfl⟩

theorem sim_upd_one {S T : List ResultItem} {k : Nat} {cS cT rS rT : ResultItem}
    (hS : S.get? k = some cS) (hT : T.get? k = some cT)
    (hlow : ∀ j, j < k → S.get? j = T.get? j) (hr : rS = rT) :
    (∀ j, j < k + 1 →
      (updAt S k fun _ => rS).get? j = (updAt T k fun _ => rT).get? j) ∧
    (∀ j, k + 1 ≤ j →
      (updAt S k fun _ => rS).get? j = S.get? j ∧
      (updAt T k fun _ => rT).get? j = T.get? j) := by
  constructor
  · intro j hj
    rw [get?_updAt, get?_updAt]
    by_cases hjk : j = k
    · subst hjk
      rw [if_pos rfl, if_pos rfl, hS, hT, hr]
      rfl
    · rw [if_neg hjk, if_neg hjk]
      exact hlow j (by omega)
  · intro j hj
    have hjk : j ≠ k := by omega
    exact ⟨get?_updAt_ne _ _ _ _ hjk, get?_updAt_ne _ _ _ _ hjk⟩

theorem sim_upd_two {S T : List ResultItem} {k gi : Nat} {cS cT rS rT : ResultItem}
    (hS : S.get? k = some cS) (hT : T.get? k = some cT)
    (hlow : ∀ j, j < k → S.get? j = T.get? j) (hr : rS = rT) (hgik : gi < k)
    (pf : ResultItem → ResultItem) :
    (∀ j, j < k + 1 →
      (updAt (updAt S k fun _ => rS) gi pf).get? j
        = (updAt (updAt T k fun _ => rT) gi pf).get? j) ∧
    (∀ j, k + 1 ≤ j →
      (updAt (updAt S k fun _ => rS) gi pf).get? j = S.get? j ∧
      (updAt (updAt T k fun _ => rT) gi pf).get? j = T.get? j) := by
  have hone := sim_upd_one hS hT hlow hr
  constructor
  · intro j hj
    rw [get?_updAt (updAt S k fun _ => rS) gi j pf,
      get?_updAt (updAt T k fun _ => rT) gi j pf]
    by_cases hjg : j = gi
    · rw [if_pos hjg, if_pos hjg]
      exact congrArg (Option.map pf) (hone.1 j hj)
    · rw [if_neg hjg, if_neg hjg]
      exact hone.1 j hj
  · intro j hj
    have hjg : j ≠ gi := by omega
    rw [get?_updAt_ne (updAt S k fun _ => rS) gi j pf hjg,
      get?_updAt_ne (updAt T k fun _ => rT) gi j pf hjg]
    exact hone.2 j hj

/-- One collapsed step behaves identically on two states that agree on
everything already processed, whose current entries share persistent
fields, and whose current-entry transients are related as a completed
first pass leaves them (excluded entries already reset, non-group
entries with untouched group counters). -/
theorem specStep_sim (cfg : Config) (g : String) (d b : JsRegex)
    (S T : List ResultItem) (e : Nat) (k : Nat)
    (hlow : ∀ j, j < k → S.get? j = T.get? j)
    (hnone : S.get? k = none ↔ T.get? k = none)
    (hcur : ∀ cS cT, S.get? k = some cS → T.get? k = some cT →
      persistOf cS = persistOf cT ∧
      (include_option_in_results cfg cT = false → cS = { cT with search_match := false }) ∧
      (cT.group = false → include_option_in_results cfg cT = true →
        cS.group_match = cT.group_match ∧ cS.active_options = cT.active_options))
    (hwfk : ∀ cT, T.get? k = some cT →
      (cT.group = true → cT.group_array_index = none) ∧
      (∀ gi, cT.group_array_index = some gi → gi < k)) :
    (∀ j, j < k + 1 → (winnowStepSpec cfg g d b S e k).1.get? j
        = (winnowStepSpec cfg g d b T e k).1.get? j) ∧
    (∀ j, k + 1 ≤ j → (winnowStepSpec cfg g d b S e k).1.get? j = S.get? j ∧
        (winnowStepSpec cfg g d b T e k).1.get? j = T.get? j) ∧
    (winnowStepSpec cfg g d b S e k).2 = (winnowStepSpec cfg g d b T e k).2 := by
  cases hT : T.get? k with
  | none =>
    have hSn : S.get? k = none := hnone.mpr hT
    have hX : winnowStepSpec cfg g d b S e k = (S, e) := by simp only [winnowStepSpec, hSn]
    have hY : winnowStepSpec cfg g d b T e k = (T, e) := by simp only [winnowStepSpec, hT]
    rw [hX, hY]
    refine ⟨?_, fun j _ => ⟨rfl, rfl⟩, rfl⟩
    intro j hj
    show S.get? j = T.get? j
    by_cases hjk : j = k
    · subst hjk; rw [hSn, hT]
    · exact hlow j (by omega)
  | some cT =>
    cases hS : S.get? k with
    | none => exact absurd (hnone.mp hS) (by rw [hT]; exact fun h => Option.noConfusion h)
    | some cS =>
      obtain ⟨hper, hexc, hngk⟩ := hcur cS cT hS hT
      obtain ⟨hwg, hwgi⟩ := hwfk cT hT
      obtain ⟨ai, gr, em, oi, lb, tx, ht, vl, tt, sel, dis, gai, glb, ch, cls, sty,
        smS, gmS, aoS, stS⟩ := cS
      obtain ⟨ai2, gr2, em2, oi2, lb2, tx2, ht2, vl2, tt2, sel2, dis2, gai2, glb2, ch2,
        cls2, sty2, smT, gmT, aoT, stT⟩ := cT
      simp only [persistOf, Persist.mk.injEq] at hper
      obtain ⟨rfl, rfl, rfl, rfl, rfl, rfl, rfl, rfl, rfl, rfl, rfl, rfl, rfl, rfl,
        rfl, rfl⟩ := hper
      by_cases hIT : include_option_in_results cfg
          (⟨ai, gr, em, oi, lb, tx, ht, vl, tt, sel, dis, gai, glb, ch, cls, sty,
            smT, gmT, aoT, stT⟩ : ResultItem) = true
      · have hIS : include_option_in_results cfg
            (⟨ai, gr, em, oi, lb, tx, ht, vl, tt, sel, dis, gai, glb, ch, cls, sty,
              smS, gmS, aoS, stS⟩ : ResultItem) = true := hIT
        cases gr with
        | true =>
          have hgai0 : gai = none := hwg rfl
          subst hgai0
          simp only [winnowStepSpec, hS, hT, hIS, hIT, Bool.not_true, if_false,
            ite_false, Bool.false_eq_true, Bool.false_or, eq_self_iff_true, if_true,
            ite_true]
          cases hgs : cfg.group_search with
          | false =>
            simp only [hgs, Bool.not_false, if_true, ite_true]
            exact ⟨(sim_upd_one hS hT hlow rfl).1, (sim_upd_one hS hT hlow rfl).2, by trivial⟩
          | true =>
            simp only [hgs, Bool.not_true, if_false, ite_false, Bool.false_eq_true]
            cases hsm : search_string_match cfg lb d g with
            | true =>
              simp only [hsm, if_true, ite_true, eq_self_iff_true]
              exact ⟨(sim_upd_one hS hT hlow rfl).1, (sim_upd_one hS hT hlow rfl).2, by trivial⟩
            | false =>
              simp only [hsm, if_false, ite_false, Bool.false_eq_true]
              exact ⟨(sim_upd_one hS hT hlow rfl).1, (sim_upd_one hS hT hlow rfl).2, by trivial⟩
        | false =>
          obtain ⟨hgm, hao⟩ := hngk rfl hIT
          simp only at hgm hao
          subst hgm
          subst hao
          cases gai with
          | none =>
            simp only [winnowStepSpec, hS, hT, hIS, hIT, Bool.not_true, if_false,
              ite_false, Bool.false_eq_true, Bool.not_false, Bool.true_or, if_true,
              ite_true, eq_self_iff_true]
            cases hsm : search_string_match cfg ht d g with
            | true =>
              simp only [hsm, if_true, ite_true, eq_self_iff_true]
              exact ⟨(sim_upd_one hS hT hlow rfl).1, (sim_upd_one hS hT hlow rfl).2, by trivial⟩
            | false =>
              simp only [hsm, if_false, ite_false, Bool.false_eq_true]
              exact ⟨(sim_upd_one hS hT hlow rfl).1, (sim_upd_one hS hT hlow rfl).2, by trivial⟩
          | some gi =>
            have hgik : gi < k := hwgi gi rfl
            have hpar : S.get? gi = T.get? gi := hlow gi hgik
            simp only [winnowStepSpec, hS, hT, hIS, hIT, Bool.not_true, if_false,
              ite_false, Bool.false_eq_true, Bool.not_false, Bool.true_or, if_true,
              ite_true, eq_self_iff_true, hpar]
            cases hf : T.get? gi with
            | none =>
              simp only [hf]
              cases hsm : search_string_match cfg ht d g with
              | true =>
                simp only [hsm, if_true, ite_true, eq_self_iff_true]
                exact ⟨(sim_upd_one hS hT hlow rfl).1, (sim_upd_one hS hT hlow rfl).2, by trivial⟩
              | false =>
                simp only [hsm, if_false, ite_false, Bool.false_eq_true]
                exact ⟨(sim_upd_one hS hT hlow rfl).1, (sim_upd_one hS hT hlow rfl).2, by trivial⟩
            | some f0 =>
              simp only [hf]
              cases hsm : search_string_match cfg ht d g with
              | true =>
                simp only [hsm, if_true, ite_true, eq_self_iff_true]
                exact ⟨(sim_upd_two hS hT hlow rfl hgik _).1,
                  (sim_upd_two hS hT hlow rfl hgik _).2, by trivial⟩
              | false =>
                simp only [hsm, if_false, ite_false, Bool.false_eq_true]
                cases hfsm : f0.search_match with
                | true =>
                  simp only [hfsm, if_true, ite_true, eq_self_iff_true]
                  exact ⟨(sim_upd_two hS hT hlow rfl hgik _).1,
                    (sim_upd_two hS hT hlow rfl hgik _).2, by trivial⟩
                | false =>
                  simp only [hfsm, if_false, ite_false, Bool.false_eq_true]
                  exact ⟨(sim_upd_two hS hT hlow rfl hgik _).1,
                    (sim_upd_two hS hT hlow rfl hgik _).2, by trivial⟩
      · have hITf : include_option_in_results cfg
            (⟨ai, gr, em, oi, lb, tx, ht, vl, tt, sel, dis, gai, glb, ch, cls, sty,
              smT, gmT, aoT, stT⟩ : ResultItem) = false := Bool.eq_false_iff.mpr hIT
        have hexc2 := hexc hITf
        simp only [ResultItem.mk.injEq] at hexc2
        obtain ⟨-, -, -, -, -, -, -, -, -, -, -, -, -, -, -, -, rfl, rfl, rfl, rfl⟩ := hexc2
        have hISf : include_option_in_results cfg
            (⟨ai, gr, em, oi, lb, tx, ht, vl, tt, sel, dis, gai, glb, ch, cls, sty,
              false, gmS, aoS, stS⟩ : ResultItem) = false := hITf
        have keyS : ({ (⟨ai, gr, em, oi, lb, tx, ht, vl, tt, sel, dis, gai, glb, ch, cls, sty,
              false, gmS, aoS, stS⟩ : ResultItem) with search_match := false })
            = (⟨ai, gr, em, oi, lb, tx, ht, vl, tt, sel, dis, gai, glb, ch, cls, sty,
              false, gmS, aoS, stS⟩ : ResultItem) := rfl
        have keyT : ({ (⟨ai, gr, em, oi, lb, tx, ht, vl, tt, sel, dis, gai, glb, ch, cls, sty,
              smT, gmS, aoS, stS⟩ : ResultItem) with search_match := false })
            = (⟨ai, gr, em, oi, lb, tx, ht, vl, tt, sel, dis, gai, glb, ch, cls, sty,
              false, gmS, aoS, stS⟩ : ResultItem) := rfl
        simp only [winnowStepSpec, hS, hT, hISf, hITf, Bool.not_false, if_true, ite_true,
          keyS, keyT]
        exact ⟨(sim_upd_one hS hT hlow rfl).1, (sim_upd_one hS hT hlow rfl).2, by trivial⟩

theorem range_decomp (k m : Nat) :
    List.range (k + 1 + m) = List.range k ++ k :: List.range' (k + 1) m := by
  rw [List.range_eq_range']
  have h : k + 1 + m = (1 + m) + k := by omega
  rw [h, ← List.range'_append_1, ← List.range_eq_range', Nat.zero_add,
    Nat.add_comm 1 m, List.range'_succ]

theorem specLoop_persist_map (cfg : Config) (g : String) (d b : JsRegex)
    (l : List Nat) (S : List ResultItem × Nat) :
    (l.foldl (fun acc k => winnowStepSpec cfg g d b acc.1 acc.2 k) S).1.map persistOf
      = S.1.map persistOf := by
  apply List.ext_get?
  intro j
  rw [List.get?_map, List.get?_map]
  exact specLoop_persist cfg g d b l S j

theorem persist_length {d1 d2 : List ResultItem}
    (h : d1.map persistOf = d2.map persistOf) : d1.length = d2.length := by
  have h2 := congrArg List.length h
  simpa using h2

theorem persist_none {d1 d2 : List ResultItem}
    (h : d1.map persistOf = d2.map persistOf) (j : Nat) :
    d1.get? j = none ↔ d2.get? j = none := by
  rw [List.get?_eq_none, List.get?_eq_none, persist_length h]

/-- A collapsed step at index `i` leaves entry `k ≠ i` untouched as long
as any group reference from entry `i` to `k` belongs to an excluded
entry (excluded entries never bump their parent). -/
theorem specStep_preserve_k (cfg : Config) (g : String) (d b : JsRegex)
    (dat : List ResultItem) (e : Nat) (i k : Nat) (hik : k ≠ i)
    (hc : ∀ c, dat.get? i = some c → c.group_array_index = some k →
      include_option_in_results cfg c = false) :
    (winnowStepSpec cfg g d b dat e i).1.get? k = dat.get? k := by
  cases hi : dat.get? i with
  | none => simp only [winnowStepSpec, hi]
  | some c0 =>
    by_cases hI : include_option_in_results cfg c0 = true
    · cases hgai : c0.group_array_index with
      | none =>
        simp only [winnowStepSpec, hi, hI, Bool.not_true, if_false, ite_false,
          Bool.false_eq_true, hgai]
        (repeat' split) <;> (dsimp only; rw [get?_updAt_ne _ _ _ _ hik])
      | some gi =>
        have hkgi : k ≠ gi := by
          intro hkg
          subst hkg
          rw [hc c0 hi hgai] at hI
          cases hI
        cases hf : dat.get? gi with
        | none =>
          simp only [winnowStepSpec, hi, hI, Bool.not_true, if_false, ite_false,
            Bool.false_eq_true, hgai, hf]
          (repeat' split) <;> (dsimp only; rw [get?_updAt_ne _ _ _ _ hik])
        | some f0 =>
          simp only [winnowStepSpec, hi, hI, Bool.not_true, if_false, ite_false,
            Bool.false_eq_true, hgai, hf]
          (repeat' split) <;>
            (dsimp only
             repeat first
               | rw [get?_updAt_ne _ _ _ _ hik]
               | rw [get?_updAt_ne _ _ _ _ hkgi])
    · have hIf : include_option_in_results cfg c0 = false := Bool.eq_false_iff.mpr hI
      simp only [winnowStepSpec, hi, hIf, Bool.not_false, if_true, ite_true]
      rw [get?_updAt_ne _ _ _ _ hik]

/-- Entry `k` survives a whole run of collapsed steps over indices
other than `k`, provided (relative to the well-formed reference data
`A`) every entry whose group reference is `k` is excluded. -/
theorem specLoop_preserve_k (cfg : Config) (g : String) (d b : JsRegex)
    (A : List ResultItem) (k : Nat) :
    ∀ (l : List Nat),
      (∀ i ∈ l, k ≠ i) →
      (∀ i ∈ l, ∀ c, A.get? i = some c → c.group_array_index = some k →
        include_option_in_results cfg c = false) →
      ∀ (S : List ResultItem × Nat), S.1.map persistOf = A.map persistOf →
      (l.foldl (fun acc j => winnowStepSpec cfg g d b acc.1 acc.2 j) S).1.get? k
        = S.1.get? k := by
  intro l
  induction l with
  | nil => intro _ _ S _; rfl
  | cons x l ih =>
    intro hl hA S hS
    rw [List.foldl_cons]
    have hstep : (winnowStepSpec cfg g d b S.1 S.2 x).1.get? k = S.1.get? k := by
      apply specStep_preserve_k cfg g d b S.1 S.2 x k (hl x (List.mem_cons_self x l))
      intro c hc hgai
      have hpp := map_persist_get hS x
      rw [hc] at hpp
      cases hAx : A.get? x with
      | none => rw [hAx] at hpp; simp at hpp
      | some cA =>
        rw [hAx] at hpp
        simp only [Option.map_some'] at hpp
        have hper : persistOf c = persistOf cA := Option.some.inj hpp
        have hgg : c.group_array_index = cA.group_array_index :=
          congrArg Persist.group_array_index hper
        have hgaiA : cA.group_array_index = some k := by rw [← hgg]; exact hgai
        rw [include_persist cfg hper]
        exact hA x (List.mem_cons_self x l) cA hAx hgaiA
    have hpers : (winnowStepSpec cfg g d b S.1 S.2 x).1.map persistOf
        = A.map persistOf := by
      apply List.ext_get?
      intro j
      rw [List.get?_map, List.get?_map, winnowStepSpec_persist]
      exact map_persist_get hS j
    rw [ih (fun i hi => hl i (List.mem_cons_of_mem x hi))
      (fun i hi => hA i (List.mem_cons_of_mem x hi)) _ hpers, hstep]

/-- The collapsed step on an excluded entry only clears its
`search_match` flag and leaves the running counter alone. -/
theorem specStep_self_excluded (cfg : Config) (g : String) (d b : JsRegex)
    (dat : List ResultItem) (e : Nat) (k : Nat) (c : ResultItem)
    (hk : dat.get? k = some c) (hI : include_option_in_results cfg c = false) :
    (winnowStepSpec cfg g d b dat e k).1.get? k
        = some { c with search_match := false } ∧
    (winnowStepSpec cfg g d b dat e k).2 = e := by
  simp only [winnowStepSpec, hk, hI, Bool.not_false, if_true, ite_true]
  refine ⟨?_, by trivial⟩
  rw [get?_updAt, if_pos rfl, hk]
  rfl

/-- The collapsed step on an included non-group entry (whose group
reference, if any, is not the entry itself) never rewrites the entry's
own `group_match` flag or `active_options` counter. -/
theorem specStep_self_nongroup (cfg : Config) (g : String) (d b : JsRegex)
    (dat : List ResultItem) (e : Nat) (k : Nat) (c : ResultItem)
    (hk : dat.get? k = some c) (hg : c.group = false)
    (hI : include_option_in_results cfg c = true)
    (hgk : ∀ gi, c.group_array_index = some gi → k ≠ gi) :
    (((winnowStepSpec cfg g d b dat e k).1.get? k).map
        fun x => (x.group_match, x.active_options))
      = some (c.group_match, c.active_options) := by
  cases hgai : c.group_array_index with
  | none =>
    simp only [winnowStepSpec, hk, hI, hg, Bool.not_true, if_false, ite_false,
      Bool.false_eq_true, Bool.not_false, Bool.true_or, if_true, ite_true, hgai]
    (repeat' split) <;>
    · dsimp only
      rw [get?_updAt, if_pos rfl, hk]
      rfl
  | some gi =>
    have hkgi : k ≠ gi := hgk gi hgai
    cases hf : dat.get? gi with
    | none =>
      simp only [winnowStepSpec, hk, hI, hg, Bool.not_true, if_false, ite_false,
        Bool.false_eq_true, Bool.not_false, Bool.true_or, if_true, ite_true, hgai, hf]
      (repeat' split) <;>
      · dsimp only
        rw [get?_updAt, if_pos rfl, hk]
        rfl
    | some f0 =>
      simp only [winnowStepSpec, hk, hI, hg, Bool.not_true, if_false, ite_false,
        Bool.false_eq_true, Bool.not_false, Bool.true_or, if_true, ite_true, hgai, hf]
      (repeat' split) <;>
      · dsimp only
        repeat rw [get?_updAt_ne _ _ _ _ hkgi]
        rw [get?_updAt, if_pos rfl, hk]
        rfl

/-- After a full first pass over well-formed data, an excluded entry
comes out exactly as its input with the `search_match` flag cleared:
its own step only clears the flag and no other step touches it, its
children being excluded as well (they inherit the disabling that
excluded it). -/
theorem firstPass_excluded (cfg : Config) (g : String) (d b : JsRegex)
    (A : List ResultItem) (hwf : wellFormedB A = true) (k : Nat) (c : ResultItem)
    (hk : A.get? k = some c) (hI : include_option_in_results cfg c = false) :
    ((List.range A.length).foldl
        (fun acc j => winnowStepSpec cfg g d b acc.1 acc.2 j) (A, 0)).1.get? k
      = some { c with search_match := false } := by
  have hkn : k < A.length := (List.get?_eq_some.mp hk).1
  have hchild : ∀ i cj, A.get? i = some cj → cj.group_array_index = some k →
      include_option_in_results cfg cj = false := by
    intro i cj hcj hgai
    obtain ⟨-, p, hp, hpg, hinh⟩ := (wellFormedB_at hwf hcj).2 k hgai
    have hpc : p = c := Option.some.inj (hp.symm.trans hk)
    subst hpc
    obtain ⟨-, hsel, hemp⟩ := (wellFormedB_at hwf hk).1 hpg
    have hdd : (!cfg.display_disabled_options && p.disabled) = true := by
      by_cases h2 : (!cfg.display_disabled_options && p.disabled) = true
      · exact h2
      · exfalso
        rw [include_option_in_results, hsel, hemp] at hI
        simp only [Bool.and_false, Bool.false_eq_true, if_false, ite_false, h2,
          Bool.true_eq_false] at hI
    have hdd' := hdd
    simp only [Bool.and_eq_true] at hdd'
    have hdd1 : (!cfg.display_disabled_options) = true := hdd'.1
    have hcjd : cj.disabled = true := hinh hdd'.2
    have hc2 : (!cfg.display_disabled_options && cj.disabled) = true := by
      rw [hdd1, hcjd]; rfl
    simp only [include_option_in_results, hc2, eq_self_iff_true, if_true, ite_true,
      ite_self]
  have hdec : List.range A.length
      = List.range k ++ k :: List.range' (k + 1) (A.length - (k + 1)) := by
    have h2 : A.length = k + 1 + (A.length - (k + 1)) := by omega
    exact (congrArg List.range h2).trans (range_decomp k (A.length - (k + 1)))
  rw [hdec]
  simp only [List.foldl_append, List.foldl_cons]
  have hTk : ((List.range k).foldl
      (fun acc j => winnowStepSpec cfg g d b acc.1 acc.2 j) (A, 0)).1.get? k
      = A.get? k := by
    apply specLoop_preserve_k cfg g d b A k (List.range k)
      (fun i hi => Nat.ne_of_gt (List.mem_range.mp hi))
      (fun i _ => hchild i) (A, 0) rfl
  obtain ⟨hstep1, hstep2⟩ := specStep_self_excluded cfg g d b
    ((List.range k).foldl (fun acc j => winnowStepSpec cfg g d b acc.1 acc.2 j) (A, 0)).1
    ((List.range k).foldl (fun acc j => winnowStepSpec cfg g d b acc.1 acc.2 j) (A, 0)).2
    k c (hTk.trans hk) hI
  have hpers1 : ((List.range k).foldl
      (fun acc j => winnowStepSpec cfg g d b acc.1 acc.2 j) (A, 0)).1.map persistOf
      = A.map persistOf := specLoop_persist_map cfg g d b (List.range k) (A, 0)
  have hpers2 : (winnowStepSpec cfg g d b
      ((List.range k).foldl (fun acc j => winnowStepSpec cfg g d b acc.1 acc.2 j) (A, 0)).1
      ((List.range k).foldl (fun acc j => winnowStepSpec cfg g d b acc.1 acc.2 j) (A, 0)).2
      k).1.map persistOf = A.map persistOf := by
    apply List.ext_get?
    intro j
    rw [List.get?_map, List.get?_map, winnowStepSpec_persist]
    exact map_persist_get hpers1 j
  rw [specLoop_preserve_k cfg g d b A k (List.range' (k + 1) (A.length - (k + 1)))
    (fun i hi => by
      obtain ⟨t, -, ht⟩ := List.mem_range'.mp hi
      omega)
    (fun i _ => hchild i) _ hpers2]
  exact hstep1

/-- After a full first pass over well-formed data, a non-group entry
admitted by the include predicate keeps its input `group_match` flag
and `active_options` counter: its own step never writes them and no
other step treats a non-group entry as a parent. -/
theorem firstPass_nongroup (cfg : Config) (g : String) (d b : JsRegex)
    (A : List ResultItem) (hwf : wellFormedB A = true) (k : Nat) (c : ResultItem)
    (hk : A.get? k = some c) (hg : c.group = false)
    (hI : include_option_in_results cfg c = true) :
    ((((List.range A.length).foldl
        (fun acc j => winnowStepSpec cfg g d b acc.1 acc.2 j) (A, 0)).1.get? k).map
      fun x => (x.group_match, x.active_options))
      = some (c.group_match, c.active_options) := by
  have hkn : k < A.length := (List.get?_eq_some.mp hk).1
  have hchild : ∀ i cj, A.get? i = some cj → cj.group_array_index = some k →
      include_option_in_results cfg cj = false := by
    intro i cj hcj hgai
    obtain ⟨-, p, hp, hpg, -⟩ := (wellFormedB_at hwf hcj).2 k hgai
    have hpc : p = c := Option.some.inj (hp.symm.trans hk)
    subst hpc
    rw [hg] at hpg
    cases hpg
  have hdec : List.range A.length
      = List.range k ++ k :: List.range' (k + 1) (A.length - (k + 1)) := by
    have h2 : A.length = k + 1 + (A.length - (k + 1)) := by omega
    exact (congrArg List.range h2).trans (range_decomp k (A.length - (k + 1)))
  rw [hdec]
  simp only [List.foldl_append, List.foldl_cons]
  have hTk : ((List.range k).foldl
      (fun acc j => winnowStepSpec cfg g d b acc.1 acc.2 j) (A, 0)).1.get? k
      = A.get? k := by
    apply specLoop_preserve_k cfg g d b A k (List.range k)
      (fun i hi => Nat.ne_of_gt (List.mem_range.mp hi))
      (fun i _ => hchild i) (A, 0) rfl
  have hgk : ∀ gi, c.group_array_index = some gi → k ≠ gi := by
    intro gi hgi
    exact Nat.ne_of_gt ((wellFormedB_at hwf hk).2 gi hgi).1
  have hstep := specStep_self_nongroup cfg g d b
    ((List.range k).foldl (fun acc j => winnowStepSpec cfg g d b acc.1 acc.2 j) (A, 0)).1
    ((List.range k).foldl (fun acc j => winnowStepSpec cfg g d b acc.1 acc.2 j) (A, 0)).2
    k c (hTk.trans hk) hg hI hgk
  have hpers1 : ((List.range k).foldl
      (fun acc j => winnowStepSpec cfg g d b acc.1 acc.2 j) (A, 0)).1.map persistOf
      = A.map persistOf := specLoop_persist_map cfg g d b (List.range k) (A, 0)
  have hpers2 : (winnowStepSpec cfg g d b
      ((List.range k).foldl (fun acc j => winnowStepSpec cfg g d b acc.1 acc.2 j) (A, 0)).1
      ((List.range k).foldl (fun acc j => winnowStepSpec cfg g d b acc.1 acc.2 j) (A, 0)).2
      k).1.map persistOf = A.map persistOf := by
    apply List.ext_get?
    intro j
    rw [List.get?_map, List.get?_map, winnowStepSpec_persist]
    exact map_persist_get hpers1 j
  rw [specLoop_preserve_k cfg g d b A k (List.range' (k + 1) (A.length - (k + 1)))
    (fun i hi => by
      obtain ⟨t, -, ht⟩ := List.mem_range'.mp hi
      omega)
    (fun i _ => hchild i) _ hpers2]
  exact hstep

/-- Running the collapsed loop a second time (on the output `B` of a
full first pass over well-formed `A`) tracks the first run step for
step: after `m` steps both runs agree on the processed prefix, leave
the unprocessed suffix untouched, and carry the same match counter. -/
theorem specLoop_idem_inv (cfg : Config) (g : String) (d b : JsRegex)
    (A B : List ResultItem) (hwf : wellFormedB A = true)
    (hB : B = ((List.range A.length).foldl
      (fun acc j => winnowStepSpec cfg g d b acc.1 acc.2 j) (A, 0)).1) :
    ∀ m, m ≤ A.length →
      (∀ j, j < m →
        ((List.range m).foldl (fun acc j => winnowStepSpec cfg g d b acc.1 acc.2 j)
            (B, 0)).1.get? j
          = ((List.range m).foldl (fun acc j => winnowStepSpec cfg g d b acc.1 acc.2 j)
            (A, 0)).1.get? j) ∧
      (∀ j, m ≤ j →
        ((List.range m).foldl (fun acc j => winnowStepSpec cfg g d b acc.1 acc.2 j)
            (B, 0)).1.get? j = B.get? j ∧
        ((List.range m).foldl (fun acc j => winnowStepSpec cfg g d b acc.1 acc.2 j)
            (A, 0)).1.get? j = A.get? j) ∧
      ((List.range m).foldl (fun acc j => winnowStepSpec cfg g d b acc.1 acc.2 j)
          (B, 0)).2
        = ((List.range m).foldl (fun acc j => winnowStepSpec cfg g d b acc.1 acc.2 j)
          (A, 0)).2 := by
  have hBA : B.map persistOf = A.map persistOf := by
    rw [hB]
    exact specLoop_persist_map cfg g d b (List.range A.length) (A, 0)
  intro m
  induction m with
  | zero =>
    intro _
    exact ⟨fun j hj => absurd hj (Nat.not_lt_zero j), fun j _ => ⟨rfl, rfl⟩, rfl⟩
  | succ m ih =>
    intro hm1
    obtain ⟨ih1, ih2, ih3⟩ := ih (Nat.le_of_succ_le hm1)
    have hpS : ((List.range m).foldl
        (fun acc j => winnowStepSpec cfg g d b acc.1 acc.2 j) (B, 0)).1.map persistOf
        = A.map persistOf :=
      (specLoop_persist_map cfg g d b (List.range m) (B, 0)).trans hBA
    have hpT : ((List.range m).foldl
        (fun acc j => winnowStepSpec cfg g d b acc.1 acc.2 j) (A, 0)).1.map persistOf
        = A.map persistOf :=
      specLoop_persist_map cfg g d b (List.range m) (A, 0)
    have hSB := (ih2 m (Nat.le_refl m)).1
    have hTA := (ih2 m (Nat.le_refl m)).2
    have hcur : ∀ cS cT,
        ((List.range m).foldl (fun acc j => winnowStepSpec cfg g d b acc.1 acc.2 j)
            (B, 0)).1.get? m = some cS →
        ((List.range m).foldl (fun acc j => winnowStepSpec cfg g d b acc.1 acc.2 j)
            (A, 0)).1.get? m = some cT →
        persistOf cS = persistOf cT ∧
        (include_option_in_results cfg cT = false →
          cS = { cT with search_match := false }) ∧
        (cT.group = false → include_option_in_results cfg cT = true →
          cS.group_match = cT.group_match ∧ cS.active_options = cT.active_options) := by
      intro cS cT hScS hTcT
      have hBcS : B.get? m = some cS := by rw [← hSB]; exact hScS
      have hAcT : A.get? m = some cT := by rw [← hTA]; exact hTcT
      refine ⟨?_, ?_, ?_⟩
      · have hpp := map_persist_get hBA m
        rw [hBcS, hAcT] at hpp
        simp only [Option.map_some'] at hpp
        exact Option.some.inj hpp
      · intro hIf
        have hfe := firstPass_excluded cfg g d b A hwf m cT hAcT hIf
        rw [← hB, hBcS] at hfe
        exact Option.some.inj hfe
      · intro hgF hIT
        have hfn := firstPass_nongroup cfg g d b A hwf m cT hAcT hgF hIT
        rw [← hB, hBcS] at hfn
        simp only [Option.map_some'] at hfn
        have hpair := Option.some.inj hfn
        exact ⟨congrArg Prod.fst hpair, congrArg Prod.snd hpair⟩
    have hwfk2 : ∀ cT,
        ((List.range m).foldl (fun acc j => winnowStepSpec cfg g d b acc.1 acc.2 j)
            (A, 0)).1.get? m = some cT →
        (cT.group = true → cT.group_array_index = none) ∧
        (∀ gi, cT.group_array_index = some gi → gi < m) := by
      intro cT hTcT
      have hAcT : A.get? m = some cT := by rw [← hTA]; exact hTcT
      have hw := wellFormedB_at hwf hAcT
      exact ⟨fun hgr => (hw.1 hgr).1, fun gi hgi => (hw.2 gi hgi).1⟩
    obtain ⟨s1, s2, s3⟩ := specStep_sim cfg g d b
      ((List.range m).foldl (fun acc j => winnowStepSpec cfg g d b acc.1 acc.2 j) (B, 0)).1
      ((List.range m).foldl (fun acc j => winnowStepSpec cfg g d b acc.1 acc.2 j) (A, 0)).1
      ((List.range m).foldl (fun acc j => winnowStepSpec cfg g d b acc.1 acc.2 j) (A, 0)).2
      m ih1 (persist_none (hpS.trans hpT.symm) m) hcur hwfk2
    simp only [List.range_succ, List.foldl_append, List.foldl_cons, List.foldl_nil]
    rw [ih3]
    refine ⟨s1, ?_, s3⟩
    intro j hj
    obtain ⟨u1, u2⟩ := s2 j hj
    obtain ⟨v1, v2⟩ := ih2 j (by omega)
    exact ⟨u1.trans v1, u2.trans v2⟩

/-- A full winnow pass is a projection on well-formed data: running it
again on its own output reproduces that output and the same match
count. -/
theorem winnowPass_fixed (cfg : Config) (q : String) (dat : List ResultItem)
    (hwf : wellFormedB dat = true) :
    winnowPass cfg q ((winnowPass cfg q dat).1) = winnowPass cfg q dat := by
  have h1 : winnowPass cfg q dat
      = (List.range dat.length).foldl
          (fun acc j => winnowStepSpec cfg q (get_search_regex cfg (regexEscape q))
            (get_highlight_regex cfg (regexEscape q)) acc.1 acc.2 j) (dat, 0) :=
    foldl_step_eq_spec cfg q (get_search_regex cfg (regexEscape q))
      (get_highlight_regex cfg (regexEscape q)) dat hwf (List.range dat.length) (dat, 0) rfl
  have hB1 : (winnowPass cfg q dat).1
      = ((List.range dat.length).foldl
          (fun acc j => winnowStepSpec cfg q (get_search_regex cfg (regexEscape q))
            (get_highlight_regex cfg (regexEscape q)) acc.1 acc.2 j) (dat, 0)).1 :=
    congrArg Prod.fst h1
  have hBA : ((winnowPass cfg q dat).1).map persistOf = dat.map persistOf := by
    rw [hB1]
    exact specLoop_persist_map cfg q (get_search_regex cfg (regexEscape q))
      (get_highlight_regex cfg (regexEscape q)) (List.range dat.length) (dat, 0)
  have hlen : ((winnowPass cfg q dat).1).length = dat.length := persist_length hBA
  have h2 : winnowPass cfg q ((winnowPass cfg q dat).1)
      = (List.range dat.length).foldl
          (fun acc j => winnowStepSpec cfg q (get_search_regex cfg (regexEscape q))
            (get_highlight_regex cfg (regexEscape q)) acc.1 acc.2 j)
          ((winnowPass cfg q dat).1, 0) := by
    have hraw : winnowPass cfg q ((winnowPass cfg q dat).1)
        = (List.range ((winnowPass cfg q dat).1).length).foldl
            (winnowStep cfg q (get_search_regex cfg (regexEscape q))
              (get_highlight_regex cfg (regexEscape q))) ((winnowPass cfg q dat).1, 0) := rfl
    rw [hraw, hlen]
    exact foldl_step_eq_spec cfg q (get_search_regex cfg (regexEscape q))
      (get_highlight_regex cfg (regexEscape q)) dat hwf
      (List.range dat.length) ((winnowPass cfg q dat).1, 0) hBA
  obtain ⟨i1, i2, i3⟩ := specLoop_idem_inv cfg q (get_search_regex cfg (regexEscape q))
    (get_highlight_regex cfg (regexEscape q)) dat ((winnowPass cfg q dat).1) hwf hB1
    dat.length (Nat.le_refl dat.length)
  rw [h2]
  conv_rhs => rw [h1]
  refine Prod.ext ?_ i3
  apply List.ext_get?
  intro j
  by_cases hj : j < dat.length
  · exact i1 j hj
  · have hj' : dat.length ≤ j := Nat.le_of_not_lt hj
    rw [(i2 j hj').1, (i2 j hj').2]
    rw [List.get?_eq_none.mpr (by rw [hlen]; exact hj'), List.get?_eq_none.mpr hj']

/-- C7: `winnow_results` is idempotent on the widget model: filtering
`results_data` with a query and then filtering the written-back result
with the same query changes nothing (same records, same rendered list,
same highlight, same no-results decision), provided the data has the
structural shape `select_to_array` produces (group records carry no
group reference, references point backwards at group records whose
disabled flag the referrer inherits). -/
theorem chosen_C7_winnow_idempotent (cfg : Config) (q : String) (dat : List ResultItem)
    (hwf : wellFormedB dat = true) :
    winnow_results cfg q ((winnow_results cfg q dat).1) = winnow_results cfg q dat := by
  have hfst : (winnow_results cfg q dat).1 = (winnowPass cfg q dat).1 := by
    simp only [winnow_results]
    split <;> rfl
  have hfix : winnowPass cfg q ((winnowPass cfg q dat).1) = winnowPass cfg q dat :=
    winnowPass_fixed cfg q dat hwf
  rw [hfst]
  simp only [winnow_results, hfix]

/-- Witness for C7 at a concrete well-formed two-entry data set (one
group and one of its options) and the query "a". -/
theorem chosen_C7_winnow_idempotent_witness :
    wellFormedB [{ array_index := 0, group := true, label := "g1" },
      { array_index := 1, html := "abc", text := "abc", group_array_index := some 0 }] = true ∧
    winnow_results { } "a" ((winnow_results { } "a"
        [{ array_index := 0, group := true, label := "g1" },
         { array_index := 1, html := "abc", text := "abc", group_array_index := some 0 }]).1)
      = winnow_results { } "a"
        [{ array_index := 0, group := true, label := "g1" },
         { array_index := 1, html := "abc", text := "abc", group_array_index := some 0 }] :=
  ⟨by decide, chosen_C7_winnow_idempotent { } "a"
    [{ array_index := 0, group := true, label := "g1" },
     { array_index := 1, html := "abc", text := "abc", group_array_index := some 0 }]
    (by decide)⟩

theorem filter_updAt_true_le (opts : List FormOpt) (i : Nat) :
    ((updAt opts i fun o => { o with selected := true }).filter (·.selected)).length
      ≤ (opts.filter (·.selected)).length + 1 := by
  induction opts generalizing i with
  | nil => simp [updAt]
  | cons x xs ih =>
    cases i with
    | zero =>
      by_cases hx : x.selected <;> simp [updAt, List.filter_cons, hx]
    | succ n =>
      have hn := ih n
      by_cases hx : x.selected <;> simp [updAt, List.filter_cons, hx] <;> omega

/-- `choices_count` under a coherent cache: it reports the true host
count and leaves the state equal up to (re)filling the cache with that
count. -/
theorem choices_count_spec (st : WidgetState) (hca : cacheOK st) :
    (choices_count st).1 = countSel st ∧
    (choices_count st).2 = { st with selected_option_count := some (countSel st) } := by
  cases hso : st.selected_option_count with
  | none =>
    simp only [choices_count, hso]
    exact ⟨by trivial, by trivial⟩
  | some n =>
    have hn := hca n hso
    constructor
    · simp [choices_count, hso, hn]
    · simp only [choices_count, hso]
      rw [show some (countSel st) = st.selected_option_count from by rw [hso, hn]]

/-- `result_select` at exhausted capacity (multi mode, coherent cache):
the highlight is dropped, the cache is (re)filled with the true count,
the `chosen:maxselected` notification fires, and nothing else — in
particular no option flag and no host option changes. -/
theorem result_select_reject (cfg : Config) (meta ctrl : Bool) (st : WidgetState) (hi : Nat)
    (hrh : st.result_highlight = some hi) (hm : cfg.is_multiple = true)
    (hca : cacheOK st)
    (hmr : maxReached cfg.max_selected_options (countSel st) = true) :
    result_select cfg meta ctrl st
      = { st with result_highlight := none,
                  selected_option_count := some (countSel st),
                  events := st.events ++ [WidgetEvent.maxselected] } := by
  have hca1 : cacheOK { st with result_highlight := none } := fun n hn => hca n hn
  have hcc := choices_count_spec { st with result_highlight := none } hca1
  have hcs : countSel { st with result_highlight := none } = countSel st := rfl
  simp only [result_select, hrh, result_clear_highlight, hm, hcc.1, hcc.2, hcs, hmr,
    Bool.true_and, if_true, ite_true, eq_self_iff_true]

/-- `result_select` under capacity but with a stale highlight (multi
mode): the highlight is dropped and the cache refilled, nothing else. -/
theorem result_select_miss (cfg : Config) (meta ctrl : Bool) (st : WidgetState) (hi : Nat)
    (hrh : st.result_highlight = some hi) (hm : cfg.is_multiple = true)
    (hca : cacheOK st)
    (hmr : maxReached cfg.max_selected_options (countSel st) = false)
    (hget : st.results_data.get? hi = none) :
    result_select cfg meta ctrl st
      = { st with result_highlight := none,
                  selected_option_count := some (countSel st) } := by
  have hca1 : cacheOK { st with result_highlight := none } := fun n hn => hca n hn
  have hcc := choices_count_spec { st with result_highlight := none } hca1
  have hcs : countSel { st with result_highlight := none } = countSel st := rfl
  simp only [result_select, hrh, result_clear_highlight, hm, hcc.1, hcc.2, hcs, hmr,
    Bool.true_and, Bool.false_eq_true, if_false, ite_false, if_true, ite_true,
    eq_self_iff_true, hget]

/-- A completed `result_select` (multi mode, coherent cache): the host
option of the selected record is switched on and the count cache is
invalidated. -/
theorem result_select_success_fields (cfg : Config) (meta ctrl : Bool) (st : WidgetState)
    (hi : Nat) (c : ResultItem)
    (hrh : st.result_highlight = some hi) (hm : cfg.is_multiple = true)
    (hca : cacheOK st)
    (hmr : maxReached cfg.max_selected_options (countSel st) = false)
    (hget : st.results_data.get? hi = some c) :
    (result_select cfg meta ctrl st).form_options
        = updAt st.form_options c.options_index (fun o => { o with selected := true }) ∧
    (result_select cfg meta ctrl st).selected_option_count = none := by
  have hca1 : cacheOK { st with result_highlight := none } := fun n hn => hca n hn
  have hcc := choices_count_spec { st with result_highlight := none } hca1
  have hcs : countSel { st with result_highlight := none } = countSel st := rfl
  simp only [result_select, hrh, result_clear_highlight, hm, hcc.1, hcc.2, hcs, hmr,
    Bool.true_and, Bool.false_eq_true, if_false, ite_false, if_true, ite_true,
    eq_self_iff_true, hget, setFormSelected, Bool.true_or, results_hide]
  (repeat' split) <;> exact ⟨rfl, rfl⟩

/-- One select gesture in multi mode keeps the cache coherent and the
selected count within a satisfied capacity bound. -/
theorem selectStep_inv (cfg : Config) (hm : cfg.is_multiple = true)
    (st : WidgetState) (hca : cacheOK st)
    (hcap : capOK cfg.max_selected_options (countSel st)) (g : Nat × Bool × Bool) :
    cacheOK (selectStep cfg st g) ∧
    capOK cfg.max_selected_options (countSel (selectStep cfg st g)) := by
  obtain ⟨i, meta, ctrl⟩ := g
  have hrh : ({ st with result_highlight := some i } : WidgetState).result_highlight
      = some i := rfl
  have hca' : cacheOK { st with result_highlight := some i } := fun n hn => hca n hn
  by_cases hmr : maxReached cfg.max_selected_options (countSel st) = true
  · have h := result_select_reject cfg meta ctrl { st with result_highlight := some i }
      i hrh hm hca' hmr
    have hstep : selectStep cfg st (i, meta, ctrl)
        = { st with result_highlight := none,
                    selected_option_count := some (countSel st),
                    events := st.events ++ [WidgetEvent.maxselected] } := by
      rw [show selectStep cfg st (i, meta, ctrl)
          = result_select cfg meta ctrl { st with result_highlight := some i } from rfl, h]
      rfl
    rw [hstep]
    constructor
    · intro n hn
      have hn2 : some (countSel st) = some n := hn
      exact (Option.some.inj hn2).symm
    · exact hcap
  · have hmrf : maxReached cfg.max_selected_options (countSel st) = false :=
      Bool.eq_false_iff.mpr hmr
    cases hget : st.results_data.get? i with
    | none =>
      have h := result_select_miss cfg meta ctrl { st with result_highlight := some i }
        i hrh hm hca' hmrf hget
      have hstep : selectStep cfg st (i, meta, ctrl)
          = { st with result_highlight := none,
                      selected_option_count := some (countSel st) } := by
        rw [show selectStep cfg st (i, meta, ctrl)
            = result_select cfg meta ctrl { st with result_highlight := some i } from rfl, h]
        rfl
      rw [hstep]
      constructor
      · intro n hn
        have hn2 : some (countSel st) = some n := hn
        exact (Option.some.inj hn2).symm
      · exact hcap
    | some c =>
      have h := result_select_success_fields cfg meta ctrl
        { st with result_highlight := some i } i c hrh hm hca' hmrf hget
      constructor
      · intro n hn
        rw [show selectStep cfg st (i, meta, ctrl)
            = result_select cfg meta ctrl { st with result_highlight := some i } from rfl] at hn
        rw [h.2] at hn
        cases hn
      · have hcnt : countSel (selectStep cfg st (i, meta, ctrl))
            = ((updAt st.form_options c.options_index fun o =>
                { o with selected := true }).filter (·.selected)).length := by
          rw [show selectStep cfg st (i, meta, ctrl)
              = result_select cfg meta ctrl { st with result_highlight := some i } from rfl]
          simp only [countSel, h.1]
        rw [hcnt]
        have hle : ((updAt st.form_options c.options_index fun o =>
            { o with selected := true }).filter (·.selected)).length ≤ countSel st + 1 :=
          filter_updAt_true_le st.form_options c.options_index
        cases hmax : cfg.max_selected_options with
        | none => exact trivial
        | some v =>
          rw [hmax] at hmrf
          have hnot : ¬ (v ≤ (countSel st : Int)) := by
            simpa [maxReached] using hmrf
          simp only [capOK]
          omega

/-- C1: capacity invariant for multi mode.  Starting from a coherent
cache and a selected count within `max_selected_options`, no sequence
of select gestures ever drives the count past the bound; and a select
attempted when the bound is already reached is a no-op that emits the
`chosen:maxselected` notification and changes neither the records nor
the host options. -/
theorem chosen_C1_capacity (cfg : Config) (hm : cfg.is_multiple = true)
    (st0 : WidgetState) (h0 : cacheOK st0)
    (hcap0 : capOK cfg.max_selected_options (countSel st0))
    (gs : List (Nat × Bool × Bool)) :
    capOK cfg.max_selected_options (countSel (gs.foldl (selectStep cfg) st0)) ∧
    (∀ st i meta ctrl, cacheOK st →
      maxReached cfg.max_selected_options (countSel st) = true →
      (selectStep cfg st (i, meta, ctrl)).results_data = st.results_data ∧
      (selectStep cfg st (i, meta, ctrl)).form_options = st.form_options ∧
      (selectStep cfg st (i, meta, ctrl)).events
        = st.events ++ [WidgetEvent.maxselected]) := by
  constructor
  · have hinv : ∀ (l : List (Nat × Bool × Bool)) (st : WidgetState), cacheOK st →
        capOK cfg.max_selected_options (countSel st) →
        cacheOK (l.foldl (selectStep cfg) st) ∧
        capOK cfg.max_selected_options (countSel (l.foldl (selectStep cfg) st)) := by
      intro l
      induction l with
      | nil => intro st h1 h2; exact ⟨h1, h2⟩
      | cons x l ih =>
        intro st h1 h2
        rw [List.foldl_cons]
        exact ih _ (selectStep_inv cfg hm st h1 h2 x).1 (selectStep_inv cfg hm st h1 h2 x).2
    exact (hinv gs st0 h0 hcap0).2
  · intro st i meta ctrl hca hmr
    have hrh : ({ st with result_highlight := some i } : WidgetState).result_highlight
        = some i := rfl
    have hca' : cacheOK { st with result_highlight := some i } := fun n hn => hca n hn
    have h := result_select_reject cfg meta ctrl { st with result_highlight := some i }
      i hrh hm hca' hmr
    have hstep : selectStep cfg st (i, meta, ctrl)
        = { st with result_highlight := none,
                    selected_option_count := some (countSel st),
                    events := st.events ++ [WidgetEvent.maxselected] } := by
      rw [show selectStep cfg st (i, meta, ctrl)
          = result_select cfg meta ctrl { st with result_highlight := some i } from rfl, h]
      rfl
    rw [hstep]
    exact ⟨rfl, rfl, rfl⟩

/-- Witness for C1 at a concrete multi-select configuration with
`max_selected_options = 1`, the empty initial widget state and one
gesture. -/
theorem chosen_C1_capacity_witness :
    cacheOK ({ } : WidgetState) ∧
    capOK (some (1 : Int)) (countSel ({ } : WidgetState)) ∧
    capOK (some (1 : Int))
      (countSel ([((0 : Nat), false, false)].foldl
        (selectStep { is_multiple := true, max_selected_options := some 1 })
        ({ } : WidgetState))) :=
  ⟨fun n hn => Option.noConfusion hn,
   by norm_num [capOK, countSel],
   (chosen_C1_capacity { is_multiple := true, max_selected_options := some 1 } rfl ({ })
     (fun n hn => Option.noConfusion hn) (by norm_num [capOK, countSel])
     [((0 : Nat), false, false)]).1⟩

/-- C2 counterexample: a negative `max_selected_options` is NOT treated
as unbounded.  `set_default_values` keeps `-1` verbatim (only `0` and
absence default to Infinity), and opening the dropdown of an empty
multi select is then refused with `chosen:maxselected`, while the
Infinity configuration opens it. -/
theorem chosen_C2_counterexample :
    (set_default_values true { max_selected_options := some (-1) }).max_selected_options
      = some (-1) ∧
    (results_show (set_default_values true { max_selected_options := some (-1) })
        { }).results_showing = false ∧
    (results_show (set_default_values true { max_selected_options := some (-1) })
        { }).events = [WidgetEvent.maxselected] ∧
    (results_show (set_default_values true { }) { }).results_showing = true := by
  decide

/-- C2 (amended): a host-supplied negative `max_selected_options` is
kept as given, and in multi mode it makes the capacity check fail for
every count: every attempt to open the dropdown and every select
gesture is refused as a no-op with the `chosen:maxselected`
notification — never fatal, but the opposite of unbounded. -/
theorem chosen_C2_negative_max (o : WOptions) (v : Int) (hv : v < 0)
    (ho : o.max_selected_options = some v) (st : WidgetState)
    (i : Nat) (meta ctrl : Bool) :
    (set_default_values true o).max_selected_options = some v ∧
    ((results_show (set_default_values true o) st).results_showing = st.results_showing ∧
     (results_show (set_default_values true o) st).form_options = st.form_options ∧
     (results_show (set_default_values true o) st).results_data = st.results_data ∧
     (results_show (set_default_values true o) st).events
       = st.events ++ [WidgetEvent.maxselected]) ∧
    ((selectStep (set_default_values true o) st (i, meta, ctrl)).form_options
       = st.form_options ∧
     (selectStep (set_default_values true o) st (i, meta, ctrl)).results_data
       = st.results_data ∧
     (selectStep (set_default_values true o) st (i, meta, ctrl)).events
       = st.events ++ [WidgetEvent.maxselected]) := by
  have hmax : (set_default_values true o).max_selected_options = some v := by
    simp only [set_default_values, ho, jsNumOrInf]
    rw [if_neg (by omega : ¬ v = 0)]
  have hmul : (set_default_values true o).is_multiple = true := rfl
  have hmrk : ∀ k : Nat,
      maxReached (set_default_values true o).max_selected_options k = true := by
    intro k
    rw [hmax]
    simp only [maxReached, decide_eq_true_eq]
    omega
  refine ⟨hmax, ?_, ?_⟩
  · cases hso : st.selected_option_count with
    | none =>
      simp only [results_show, hmul, choices_count, hso, hmrk, Bool.true_and,
        if_true, ite_true, eq_self_iff_true]
      exact ⟨by trivial, by trivial, by trivial, by trivial⟩
    | some n =>
      simp only [results_show, hmul, choices_count, hso, hmrk, Bool.true_and,
        if_true, ite_true, eq_self_iff_true]
      exact ⟨by trivial, by trivial, by trivial, by trivial⟩
  · cases hso : st.selected_option_count with
    | none =>
      simp only [selectStep, result_select, result_clear_highlight, hmul,
        choices_count, hso, hmrk, Bool.true_and, if_true, ite_true, eq_self_iff_true]
      exact ⟨by trivial, by trivial, by trivial⟩
    | some n =>
      simp only [selectStep, result_select, result_clear_highlight, hmul,
        choices_count, hso, hmrk, Bool.true_and, if_true, ite_true, eq_self_iff_true]
      exact ⟨by trivial, by trivial, by trivial⟩

/-- Witness for the amended C2 theorem at the concrete bound `-1`. -/
theorem chosen_C2_negative_max_witness :
    (-1 : Int) < 0 ∧
    ({ max_selected_options := some (-1) } : WOptions).max_selected_options = some (-1) ∧
    (set_default_values true { max_selected_options := some (-1) }).max_selected_options
      = some (-1) :=
  ⟨by decide, rfl,
   (chosen_C2_negative_max { max_selected_options := some (-1) } (-1) (by decide) rfl
     ({ }) 0 false false).1⟩

/-- Every `result_select` outcome keeps the count cache coherent: a
completed select nulls it, a rejected or missed one refills it with
the true count, a highlight-less call leaves the state alone. -/
theorem result_select_cacheOK (cfg : Config) (meta ctrl : Bool) (st : WidgetState)
    (hca : cacheOK st) : cacheOK (result_select cfg meta ctrl st) := by
  cases hrh : st.result_highlight with
  | none => simp only [result_select, hrh]; exact hca
  | some hi =>
    cases hm : cfg.is_multiple with
    | true =>
      by_cases hmr : maxReached cfg.max_selected_options (countSel st) = true
      · rw [result_select_reject cfg meta ctrl st hi hrh hm hca hmr]
        intro n hn
        have hn2 : some (countSel st) = some n := hn
        exact (Option.some.inj hn2).symm
      · have hmrf := Bool.eq_false_iff.mpr hmr
        cases hget : st.results_data.get? hi with
        | none =>
          rw [result_select_miss cfg meta ctrl st hi hrh hm hca hmrf hget]
          intro n hn
          have hn2 : some (countSel st) = some n := hn
          exact (Option.some.inj hn2).symm
        | some c =>
          intro n hn
          rw [(result_select_success_fields cfg meta ctrl st hi c hrh hm hca hmrf
            hget).2] at hn
          cases hn
    | false =>
      simp only [result_select, hrh, result_clear_highlight, hm, Bool.false_and,
        Bool.false_eq_true, if_false, ite_false]
      cases hget : (reset_single_select_options st.results_data).get? hi with
      | none =>
        simp only [hget]
        intro n hn
        have hn2 : st.selected_option_count = some n := hn
        exact hca n hn2
      | some c =>
        simp only [hget, results_hide, setFormSelected, hm, Bool.false_or,
          Bool.not_false, Bool.true_or, if_true, ite_true, eq_self_iff_true]
        (repeat' split) <;> (intro n hn; exact Option.noConfusion hn)

/-- Every `result_deselect` outcome keeps the count cache coherent: a
refused deselect changes nothing, a completed one nulls the cache. -/
theorem result_deselect_cacheOK (cfg : Config) (idx : Nat) (st : WidgetState)
    (hca : cacheOK st) : cacheOK (result_deselect cfg idx st).2 := by
  cases hg1 : st.results_data.get? idx with
  | none => simp only [result_deselect, hg1]; exact hca
  | some b =>
    cases hg2 : st.form_options.get? b.options_index with
    | none => simp only [result_deselect, hg1, hg2]; exact hca
    | some op =>
      cases hdis : op.disabled with
      | true =>
        simp only [result_deselect, hg1, hg2, hdis, if_true, ite_true, eq_self_iff_true]
        exact hca
      | false =>
        simp only [result_deselect, hg1, hg2, hdis, Bool.false_eq_true, if_false,
          ite_false, winnowApply]
        (repeat' split) <;> (intro n hn; exact Option.noConfusion hn)

theorem gestureStep_cacheOK (cfg : Config) (st : WidgetState) (hca : cacheOK st)
    (g : Gesture) : cacheOK (gestureStep cfg st g) := by
  cases g with
  | select i m c =>
    exact result_select_cacheOK cfg m c { st with result_highlight := some i }
      (fun n hn => hca n hn)
  | deselect i => exact result_deselect_cacheOK cfg i st hca

/-- C9: cache coherence of the selected-entry count.  Starting from a
coherent cache (for instance the empty one), any sequence of select
and deselect gestures keeps the cache coherent, and the count the
widget reports through `choices_count` is exactly the number of host
options with `selected = true`. -/
theorem chosen_C9_cache_coherent (cfg : Config) (st0 : WidgetState) (h0 : cacheOK st0)
    (gs : List Gesture) :
    cacheOK (gs.foldl (gestureStep cfg) st0) ∧
    (choices_count (gs.foldl (gestureStep cfg) st0)).1
      = countSel (gs.foldl (gestureStep cfg) st0) := by
  have hinv : ∀ (l : List Gesture) (st : WidgetState), cacheOK st →
      cacheOK (l.foldl (gestureStep cfg) st) := by
    intro l
    induction l with
    | nil => intro st h; exact h
    | cons x l ih =>
      intro st h
      rw [List.foldl_cons]
      exact ih _ (gestureStep_cacheOK cfg st h x)
  have hc := hinv gs st0 h0
  exact ⟨hc, (choices_count_spec _ hc).1⟩

/-- Witness for C9: one select followed by one deselect from the empty
multi-select state. -/
theorem chosen_C9_cache_coherent_witness :
    cacheOK ({ } : WidgetState) ∧
    (choices_count ([Gesture.select 0 false false, Gesture.deselect 0].foldl
        (gestureStep { is_multiple := true }) ({ } : WidgetState))).1
      = countSel ([Gesture.select 0 false false, Gesture.deselect 0].foldl
        (gestureStep { is_multiple := true }) ({ } : WidgetState)) :=
  ⟨fun n hn => Option.noConfusion hn,
   (chosen_C9_cache_coherent { is_multiple := true } ({ })
     (fun n hn => Option.noConfusion hn)
     [Gesture.select 0 false false, Gesture.deselect 0]).2⟩
